import Mathlib

set_option maxHeartbeats 1000000

/-!
Verification of the reconciliation-and-synthesis engine of
`pythonbuild/cpython.py` (python-build-standalone).

The Python source works on byte strings; they are modelled here as lists of
characters (`BStr`).  Pure helpers of the source (`parse_setup_line`,
`link_for_target`, `meets_python_minimum_version`, `parse_config_c`,
`derive_setup_local`) are translated into executable Lean definitions.
The two external libraries used by the source are modelled at their
boundary: `tarfile` extraction is modelled by passing the two extracted
texts (`setup_lines`, `config_c_in`) as inputs, and `re.match` for the
configuration-supplied target patterns is modelled by an explicit
match-predicate parameter `rmatch` (the fixed regular expressions of the
source, `RE_VARIABLE`, `RE_EXTENSION_MODULE`, `RE_DEFINE` and
`RE_INITTAB_ENTRY`, are translated directly).  Python exceptions
(`Exception`, `ValueError`, `IndexError`) are modelled with `Except`.
-/

/-- Byte strings of the source are modelled as lists of characters. -/
abbrev BStr := List Char

/-- Shorthand turning a Lean string literal into the byte-string model. -/
def str (s : String) : BStr := s.data

deriving instance DecidableEq for Except

/-- ASCII whitespace, as recognised by `bytes.split()` / `bytes.rstrip()`
and by the regex class `\s` on bytes. -/
def isSpaceB (c : Char) : Bool :=
  c = ' ' || c = '\t' || c = '\n' || c = '\r' || c = '\x0b' || c = '\x0c'

/-- Python `b.startswith(p)`. -/
def leadsWith : BStr → BStr → Bool
  | [], _ => true
  | _ :: _, [] => false
  | a :: xs, b :: ys => a = b && leadsWith xs ys

/-- Membership of a single byte, Python `c in b`. -/
def hasChar (c : Char) (l : BStr) : Bool := l.any (fun d => d = c)

/-- Python substring test `needle in haystack` for byte strings. -/
def containsSub (needle : BStr) : BStr → Bool
  | [] => needle.isEmpty
  | c :: rest => leadsWith needle (c :: rest) || containsSub needle rest

/-- Python `b.endswith(b".c")`. -/
def endsDotC (l : BStr) : Bool :=
  match l.reverse with
  | 'c' :: '.' :: _ => true
  | _ => false

/-- Python `bytes.rstrip()`. -/
def rstripB (l : BStr) : BStr := (l.reverse.dropWhile isSpaceB).reverse

/-- Worker of `bytes.split()`: `cur` holds the reversed current word. -/
def wordsRev (cur : BStr) : BStr → List BStr
  | [] => if cur.isEmpty then [] else [cur.reverse]
  | c :: cs =>
    if isSpaceB c then
      if cur.isEmpty then wordsRev [] cs else cur.reverse :: wordsRev [] cs
    else wordsRev (c :: cur) cs

/-- Python `bytes.split()` (no separator): split on whitespace runs,
discarding empty words. -/
def wordsOf (l : BStr) : List BStr := wordsRev [] l

/-- Python `b.split(sep)` for a one-byte separator: split on every
occurrence of `c`, keeping empty pieces. -/
def splitCh (c : Char) : BStr → List BStr
  | [] => [[]]
  | d :: rest =>
    if d = c then [] :: splitCh c rest
    else
      match splitCh c rest with
      | w :: ws => (d :: w) :: ws
      | [] => [[d]]

/-- Python `sep.join(...)` for a one-byte separator. -/
def joinCh (c : Char) (xs : List BStr) : BStr := List.intercalate [c] xs

/-- Python `sep.join(...)` for a multi-byte separator. -/
def joinSep (sep : BStr) (xs : List BStr) : BStr := List.intercalate sep xs

/-- Lexicographic byte-string comparison, Python `<=` on `bytes` / `str`. -/
def leChars : BStr → BStr → Bool
  | [], _ => true
  | _ :: _, [] => false
  | a :: xs, b :: ys => if a = b then leChars xs ys else decide (a < b)

/-- Insertion step of the sorting used to model Python `sorted`. -/
def insSortBy (f : α → BStr) (x : α) : List α → List α
  | [] => [x]
  | y :: ys => if leChars (f x) (f y) then x :: y :: ys else y :: insSortBy f x ys

/-- Python `sorted(l, key=f)` with a byte-string key (insertion sort). -/
def sortByKey (f : α → BStr) (l : List α) : List α := l.foldr (insSortBy f) []

/-- Python `sorted(l)` on byte strings. -/
def sortChars (l : List BStr) : List BStr := sortByKey id l

/-- Python `set.add` on a set modelled as a duplicate-free list in
insertion order. -/
def setAdd (l : List BStr) (x : BStr) : List BStr := if x ∈ l then l else l ++ [x]

/-- Python set difference `a - b` of sets modelled as lists. -/
def setDiff (a b : List BStr) : List BStr := a.filter (fun x => decide (x ∉ b))

/-- Python `int()` on a byte string, restricted to optionally signed
decimal literals (the only shapes version components take here).
`none` models the `ValueError` raised on malformed input. -/
def digitsVal (l : BStr) : Option Nat :=
  if l = [] then none
  else if l.all (fun c => c.isDigit) then
    some (l.foldl (fun n c => n * 10 + (c.toNat - 48)) 0)
  else none

/-- Signed integer parsing for `int()`. -/
def bint : BStr → Option Int
  | '-' :: rest => (digitsVal rest).map (fun n => -(n : Int))
  | '+' :: rest => (digitsVal rest).map (fun n => (n : Int))
  | l => (digitsVal l).map (fun n => (n : Int))

/-- `(int(parts[0]), int(parts[1]))` for `parts = v.split(".")`.  `none`
models the `ValueError`/`IndexError` raised on a malformed version. -/
def pyPairB (v : BStr) : Option (Int × Int) :=
  match splitCh '.' v with
  | p0 :: p1 :: _ =>
    match bint p0, bint p1 with
    | some a, some b => some (a, b)
    | _, _ => none
  | _ => none

/-- Python tuple comparison `(a, b) >= (c, d)` (lexicographic). -/
def tupleGE (g w : Int × Int) : Bool :=
  decide (w.1 < g.1) || (decide (g.1 = w.1) && decide (w.2 ≤ g.2))

/-- Python tuple comparison `(a, b) <= (c, d)` (lexicographic). -/
def tupleLE (g w : Int × Int) : Bool :=
  decide (g.1 < w.1) || (decide (g.1 = w.1) && decide (g.2 ≤ w.2))

/-- `meets_python_minimum_version` (cpython.py lines 184-191); `none`
models the `ValueError` raised by `int()` on malformed versions. -/
def meets_python_minimum_version (got wanted : BStr) : Option Bool :=
  match pyPairB got, pyPairB wanted with
  | some g, some w => some (tupleGE g w)
  | _, _ => none

/-- `meets_python_maximum_version` (cpython.py lines 194-201). -/
def meets_python_maximum_version (got wanted : BStr) : Option Bool :=
  match pyPairB got, pyPairB wanted with
  | some g, some w => some (tupleLE g w)
  | _, _ => none

/-- `link_for_target` (cpython.py lines 175-181). -/
def link_for_target (lib target_triple : BStr) : BStr :=
  if containsSub (str "-apple-") target_triple then str "-Xlinker -hidden-l" ++ lib
  else str "-l" ++ lib

/-- Index of the last '.' of a file name, if any. -/
def lastDotIdx : BStr → Option Nat
  | [] => none
  | c :: rest =>
    match lastDotIdx rest with
    | some i => some (i + 1)
    | none => if c = '.' then some 0 else none

/-- `pathlib.PurePosixPath(name).with_suffix(".o").name` on a bare file
name: replace everything from the last '.' on by ".o"; a '.' only at
index 0 marks a dotfile without suffix (pathlib), so ".o" is appended. -/
def withSuffixO (name : BStr) : BStr :=
  match lastDotIdx name with
  | some i => if 0 < i then name.take i ++ str ".o" else name ++ str ".o"
  | none => name ++ str ".o"

/-- `pathlib.PurePosixPath(p).name`: the part after the last '/'. -/
def basenameB (p : BStr) : BStr := (splitCh '/' p).getLastD []

/-- `pathlib.PurePosixPath(p).parent` as a string: the part before the
last '/'.  This models pathlib joining for the normalized relative
paths that occur in `Setup` lines (pathlib would re-anchor at the root
for an absolute source path). -/
def dirnameB (p : BStr) : BStr := joinCh '/' (splitCh '/' p).dropLast

/-- Object path for a `.c` source token (cpython.py lines 137-152):
`Modules / parent / name.o` when the 3.11 path-format change applies
and the word has a directory part, else `Modules / name.o`. -/
def setupObjPath (word : BStr) (preserveParent : Bool) : BStr :=
  if preserveParent then
    str "Modules/" ++ dirnameB word ++ str "/" ++ withSuffixO (basenameB word)
  else str "Modules/" ++ withSuffixO (basenameB word)

/-- The dict returned by `parse_setup_line`. -/
structure SetupLine where
  extension : BStr
  line : BStr
  posix_obj_paths : List BStr
  links : List BStr
  frameworks : List BStr
  variant : BStr

deriving DecidableEq, Repr

/-- Accumulator of the three sets built by the `parse_setup_line` token
loop. -/
structure ParseAcc where
  objs : List BStr
  links : List BStr
  frameworks : List BStr

deriving DecidableEq, Repr

/-- The token loop of `parse_setup_line` (cpython.py lines 135-163).
The `-framework` branch reads `words[i + 1]`, which raises `IndexError`
when `-framework` is the final word. -/
def parseWords (python_version : BStr) : List BStr → ParseAcc → Except BStr ParseAcc
  | [], acc => .ok acc
  | word :: rest, acc =>
    if endsDotC word then
      match meets_python_minimum_version python_version (str "3.11") with
      | none => .error (str "ValueError: invalid python version")
      | some minOk =>
        let obj := setupObjPath word (minOk && hasChar '/' word)
        parseWords python_version rest { acc with objs := setAdd acc.objs obj }
    else if leadsWith (str "-l") word then
      parseWords python_version rest { acc with links := setAdd acc.links (word.drop 2) }
    else if leadsWith (str "-hidden-l") word then
      parseWords python_version rest { acc with links := setAdd acc.links (word.drop 9) }
    else if word = str "-framework" then
      match rest with
      | [] => .error (str "IndexError: list index out of range")
      | nxt :: _ =>
        parseWords python_version rest { acc with frameworks := setAdd acc.frameworks nxt }
    else parseWords python_version rest acc

/-- `parse_setup_line` (cpython.py lines 119-172).  `ok none` is the
`return` for a line that is blank after comment stripping; `.error`
models the Python exceptions escaping the function (`IndexError` on a
whitespace-only line or a trailing `-framework`, `ValueError` from
`int()` on an unparseable active version). -/
def parse_setup_line (line : BStr) (python_version : BStr) : Except BStr (Option SetupLine) :=
  let line := if hasChar '#' line then rstripB (line.takeWhile (fun c => c ≠ '#')) else line
  if line = [] then .ok none
  else
    match wordsOf line with
    | [] => .error (str "IndexError: list index out of range")
    | w0 :: ws =>
      (parseWords python_version (w0 :: ws) ⟨[], [], []⟩).map (fun acc =>
        some { extension := w0, line := line, posix_obj_paths := acc.objs,
               links := acc.links, frameworks := acc.frameworks, variant := str "default" })

/-- Try to match `RE_DEFINE = -D[^=]+=[^\\s]+` (cpython.py line 334) at
the head of the input: literal "-D", then one or more non-'=' bytes
(greedily, hence ending right before the first '='), then '=', then a
maximal nonempty run of non-whitespace bytes.  Returns the matched text
and the remainder after the match. -/
def matchDefineAt (l : BStr) : Option (BStr × BStr) :=
  if leadsWith (str "-D") l then
    let rest := l.drop 2
    let pre := rest.takeWhile (fun c => c ≠ '=')
    if pre = [] then none
    else
      match rest.drop pre.length with
      | '=' :: tail =>
        let value := tail.takeWhile (fun c => ¬ isSpaceB c)
        if value = [] then none
        else some (str "-D" ++ pre ++ '=' :: value, tail.drop value.length)
      | _ => none
  else none

/-- Fuel-bounded worker of `RE_DEFINE.finditer`; by
`matchDefineAt_length`, fuel equal to the input length always
suffices. -/
def finditerAux : Nat → BStr → List BStr
  | 0, _ => []
  | _ + 1, [] => []
  | fuel + 1, c :: rest =>
    match matchDefineAt (c :: rest) with
    | some (m, after) => m :: finditerAux fuel after
    | none => finditerAux fuel rest

/-- `RE_DEFINE.finditer(line)` (cpython.py line 442): the leftmost,
non-overlapping matches, scanned left to right. -/
def finditerDefine (l : BStr) : List BStr := finditerAux l.length l

/-- Fuel-bounded worker of `RE_DEFINE.sub`. -/
def subDefineAux : Nat → BStr → BStr
  | 0, l => l
  | _ + 1, [] => []
  | fuel + 1, c :: rest =>
    match matchDefineAt (c :: rest) with
    | some (_, after) => subDefineAux fuel after
    | none => c :: subDefineAux fuel rest

/-- `RE_DEFINE.sub(b"", line)` (cpython.py line 446): delete every
leftmost non-overlapping match. -/
def subDefine (l : BStr) : BStr := subDefineAux l.length l

/-- A `defines-conditional` entry of the YAML metadata: `define` is
required, `targets` defaults to the empty list (`entry.get`), the two
version bounds are optional. -/
structure CondDefine where
  define : BStr
  targets : List BStr
  minimum_python_version : Option BStr
  maximum_python_version : Option BStr

deriving DecidableEq, Repr

/-- A `sources-conditional` entry: `source` is required, `targets`
defaults to the empty list, the two version bounds are optional. -/
structure CondSource where
  source : BStr
  targets : List BStr
  minimum_python_version : Option BStr
  maximum_python_version : Option BStr

deriving DecidableEq, Repr

/-- An `includes-conditional` entry: the source reads both `path` and
`targets` with mandatory indexing (`entry["..."]`). -/
structure CondInclude where
  path : BStr
  targets : List BStr

deriving DecidableEq, Repr

/-- A `links-conditional` entry: `name` and `targets` are both read with
mandatory indexing. -/
structure CondLink where
  name : BStr
  targets : List BStr

deriving DecidableEq, Repr

/-- A `linker-args` entry: `args` and `targets` are both read with
mandatory indexing. -/
structure LinkerArgs where
  args : List BStr
  targets : List BStr

deriving DecidableEq, Repr

/-- One extension-module record of the YAML metadata
(`EXTENSION_MODULE_SCHEMA`).  Fields the source reads through
`info.get(..., [])`, or through a walrus `get` whose empty-list and
absent cases behave identically, are plain lists; `sources` is an
`Option` because the source distinguishes `"sources" not in info` from
an empty list; the booleans and whole-module version bounds are
`Option`s read with defaults. -/
structure ModuleInfo where
  config_c_only : Option Bool := none
  defines : List BStr := []
  defines_conditional : List CondDefine := []
  disabled_targets : List BStr := []
  frameworks : List BStr := []
  includes : List BStr := []
  includes_conditional : List CondInclude := []
  includes_deps : List BStr := []
  links : List BStr := []
  links_conditional : List CondLink := []
  linker_args : List LinkerArgs := []
  minimum_python_version : Option BStr := none
  maximum_python_version : Option BStr := none
  setup_enabled : Option Bool := none
  sources : Option (List BStr) := none
  sources_conditional : List CondSource := []

deriving DecidableEq, Repr

/-- Lift the `none` of a failed version parse into the `Except` that
models a raised `ValueError`. -/
def liftOpt (o : Option α) (msg : BStr) : Except BStr α :=
  match o with
  | some a => .ok a
  | none => .error msg

/-- Message used for the modelled `ValueError` of `int()`. -/
def valueErrorMsg : BStr := str "ValueError: invalid python version"

/-- One `sources-conditional` entry of the per-module assembly
(cpython.py lines 363-377). -/
def scStep (python_version target_triple : BStr) (rmatch : BStr → BStr → Bool)
    (ln : BStr) (entry : CondSource) : Except BStr BStr := do
  let target_match :=
    if entry.targets ≠ [] then entry.targets.any (fun p => rmatch p target_triple)
    else true
  let python_min_match ← liftOpt
    (meets_python_minimum_version python_version
      (entry.minimum_python_version.getD (str "1.0"))) valueErrorMsg
  let python_max_match ← liftOpt
    (meets_python_maximum_version python_version
      (entry.maximum_python_version.getD (str "100.0"))) valueErrorMsg
  if target_match && (python_min_match && python_max_match) then
    pure (ln ++ str " " ++ entry.source)
  else pure ln

/-- One `defines-conditional` entry of the per-module assembly
(cpython.py lines 382-396).  Note the maximum check reads the entry's
`minimum-python-version` field with default "100.0", exactly as
cpython.py line 392 does. -/
def dcStep (python_version target_triple : BStr) (rmatch : BStr → BStr → Bool)
    (ln : BStr) (entry : CondDefine) : Except BStr BStr := do
  let target_match :=
    if entry.targets ≠ [] then entry.targets.any (fun p => rmatch p target_triple)
    else true
  let python_min_match ← liftOpt
    (meets_python_minimum_version python_version
      (entry.minimum_python_version.getD (str "1.0"))) valueErrorMsg
  let python_max_match ← liftOpt
    (meets_python_maximum_version python_version
      (entry.minimum_python_version.getD (str "100.0"))) valueErrorMsg
  if target_match && (python_min_match && python_max_match) then
    pure (ln ++ str " -D" ++ entry.define)
  else pure ln

/-- The pure clause steps after the conditional defines (cpython.py
lines 398-427): includes, conditional includes, dependency includes
(omitted on apple targets), links, conditional links, frameworks (apple
targets only), and conditional linker args. -/
def tailStages (info : ModuleInfo) (target_triple : BStr)
    (rmatch : BStr → BStr → Bool) (ln : BStr) : BStr :=
  let line := info.includes.foldl (fun ln p => ln ++ str " -I" ++ p) ln
  let line := info.includes_conditional.foldl (fun ln entry =>
    if entry.targets.any (fun p => rmatch p target_triple) then
      ln ++ str " -I" ++ entry.path
    else ln) line
  let line := info.includes_deps.foldl (fun ln p =>
    if containsSub (str "-apple-") target_triple then ln
    else ln ++ str " -I/tools/deps/" ++ p) line
  let line := info.links.foldl (fun ln lib =>
    ln ++ str " " ++ link_for_target lib target_triple) line
  let line := info.links_conditional.foldl (fun ln entry =>
    if entry.targets.any (fun p => rmatch p target_triple) then
      ln ++ str " " ++ link_for_target entry.name target_triple
    else ln) line
  let line :=
    if containsSub (str "-apple-") target_triple then
      info.frameworks.foldl (fun ln fw => ln ++ str " -framework " ++ fw) line
    else line
  info.linker_args.foldl (fun ln entry =>
    if entry.targets.any (fun p => rmatch p target_triple) then
      entry.args.foldl (fun ln2 a => ln2 ++ str " -Xlinker " ++ a) ln
    else ln) line

/-- The per-module line assembly of `derive_setup_local` (cpython.py
lines 358-427), for a module that is neither disabled nor ignored and
has a `sources` key: the name, unconditional then conditional sources,
unconditional then conditional defines, then the pure tail stages.
`rmatch p t` models `re.match(p, t) is not None` for the
configuration-supplied target patterns. -/
def derive_module_line (name : BStr) (info : ModuleInfo)
    (python_version target_triple : BStr)
    (rmatch : BStr → BStr → Bool) : Except BStr BStr := do
  let line := name
  let line := (info.sources.getD []).foldl (fun ln s => ln ++ str " " ++ s) line
  let line ← info.sources_conditional.foldlM
    (scStep python_version target_triple rmatch) line
  let line := info.defines.foldl (fun ln d => ln ++ str " -D" ++ d) line
  let line ← info.defines_conditional.foldlM
    (dcStep python_version target_triple rmatch) line
  pure (tailStages info target_triple rmatch line)

/-- Try to match `RE_INITTAB_ENTRY` (cpython.py line 475) at the head of
the input: an opening brace, a quoted nonempty name (first group), a
literal comma-space, a nonempty run up to the closing brace (second
group), then the closing brace and a comma. -/
def inittabEntryAt (l : BStr) : Option (BStr × BStr) :=
  match l with
  | '\x7b' :: '"' :: rest =>
    let g1 := rest.takeWhile (fun c => c ≠ '"')
    if g1 = [] then none
    else
      match rest.drop g1.length with
      | '"' :: ',' :: ' ' :: rest2 =>
        let g2 := rest2.takeWhile (fun c => c ≠ '\x7d')
        if g2 = [] then none
        else
          match rest2.drop g2.length with
          | '\x7d' :: ',' :: _ => some (g1, g2)
          | _ => none
      | _ => none
  | _ => none

/-- `RE_INITTAB_ENTRY.search(line)`: the leftmost match, if any. -/
def inittabSearch : BStr → Option (BStr × BStr)
  | [] => none
  | c :: rest =>
    match inittabEntryAt (c :: rest) with
    | some g => some g
    | none => inittabSearch rest

/-- Python dict assignment on a mapping modelled as an assoc list in
insertion order (assignment to an existing key overwrites in place). -/
def assocSet (m : List (BStr × BStr)) (k v : BStr) : List (BStr × BStr) :=
  match m with
  | [] => [(k, v)]
  | (k0, v0) :: rest => if k0 = k then (k0, v) :: rest else (k0, v0) :: assocSet rest k v

/-- Line loop of `parse_config_c` (cpython.py lines 478-507). -/
def parseConfigCAux : List BStr → Bool → List (BStr × BStr) → List (BStr × BStr)
  | [], _, acc => acc
  | line :: rest, seen, acc =>
    let seen := seen || leadsWith (str "struct _inittab") line
    if seen = false then parseConfigCAux rest seen acc
    else if containsSub (str "/* Sentinel */") line then acc
    else
      match inittabSearch line with
      | some (k, v) => parseConfigCAux rest seen (assocSet acc k v)
      | none => parseConfigCAux rest seen acc

/-- `parse_config_c` (cpython.py lines 478-507): scan the lines of a
`config.c`-style text, start processing at the `struct _inittab`
declaration, stop at the sentinel comment, and collect the inittab
entries into a name-to-initializer mapping. -/
def parse_config_c (s : BStr) : List (BStr × BStr) :=
  parseConfigCAux (splitCh '\n' s) false []

/-- `RE_VARIABLE = ^[a-zA-Z_]+\s*=` (cpython.py line 262): a maximal
nonempty run of letters/underscores, optional whitespace, then '='. -/
def matchesVariable (l : BStr) : Bool :=
  let pre := l.takeWhile (fun c => c.isAlpha || c = '_')
  (!pre.isEmpty) &&
    (match (l.drop pre.length).dropWhile isSpaceB with
     | '=' :: _ => true
     | _ => false)

/-- Word characters of the regex boundary `\b` on bytes. -/
def isWordChar (c : Char) : Bool := c.isAlpha || c.isDigit || c = '_'

/-- The character class `[a-zA-Z/_-]` of `RE_EXTENSION_MODULE`. -/
def isModRefChar (c : Char) : Bool := c.isAlpha || c = '/' || c = '_' || c = '-'

/-- Does `[a-zA-Z/_-]+\.c\b` match anywhere in the input? -/
def hasCSrcRef : BStr → Bool
  | [] => false
  | c :: rest =>
    (isModRefChar c &&
      (match rest with
       | '.' :: 'c' :: rest2 =>
         match rest2 with
         | [] => true
         | d :: _ => !(isWordChar d)
       | _ => false)) || hasCSrcRef rest

/-- `RE_EXTENSION_MODULE = ^([a-z_]+)\s.*[a-zA-Z/_-]+\.c\b` (cpython.py
line 263): group 1 is the maximal lowercase/underscore run at the
start, which must be nonempty and followed by one whitespace byte, and
the rest of the part must contain a `.c` reference. -/
def extModMatch (part : BStr) : Option BStr :=
  let g := part.takeWhile (fun c => c.isLower || c = '_')
  if g = [] then none
  else
    match part.drop g.length with
    | c :: rest => if isSpaceB c && hasCSrcRef rest then some g else none
    | [] => none

/-- The two name sets recovered from the distribution `Setup` file. -/
structure SetupDist where
  dist_modules : List BStr
  setup_enabled_actual : List BStr

deriving DecidableEq, Repr

/-- Inner loop over the '#'-separated parts of one Setup line
(cpython.py lines 276-283): the first matching part registers the
module and breaks; a match in part 0 (before any comment) also
registers the module as setup-enabled. -/
def scanParts (i : Nat) (parts : List BStr) (st : SetupDist) : SetupDist :=
  match parts with
  | [] => st
  | part :: rest =>
    match extModMatch part with
    | some g =>
      { dist_modules := setAdd st.dist_modules g,
        setup_enabled_actual :=
          if i = 0 then setAdd st.setup_enabled_actual g else st.setup_enabled_actual }
    | none => scanParts (i + 1) rest st

/-- The `Setup`-file scan of `derive_setup_local` (cpython.py lines
259-283): per raw line, strip trailing whitespace, skip blank lines and
variable assignments, then scan the comment-separated parts. -/
def parseSetupDist (setup_lines : List BStr) : SetupDist :=
  setup_lines.foldl (fun st line =>
    let line := rstripB line
    if line = [] then st
    else if matchesVariable line then st
    else scanParts 0 (splitCh '#' line) st) ⟨[], []⟩

/-- The four name sets of the metadata-collection loop. -/
structure CollectResult where
  ignored : List BStr
  disabled : List BStr
  setup_enabled_wanted : List BStr
  config_c_only_wanted : List BStr

deriving DecidableEq, Repr

/-- The metadata-collection loop of `derive_setup_local` (cpython.py
lines 216-248), iterating the modules sorted by name. -/
def collectMeta (extension_modules : List (BStr × ModuleInfo))
    (python_version target_triple : BStr) (rmatch : BStr → BStr → Bool) :
    Except BStr CollectResult :=
  (sortByKey (fun m => m.1) extension_modules).foldlM (fun st nameInfo => do
    let name := nameInfo.1
    let info := nameInfo.2
    let python_min_match ← liftOpt
      (meets_python_minimum_version python_version
        (info.minimum_python_version.getD (str "1.0"))) valueErrorMsg
    let python_max_match ← liftOpt
      (meets_python_maximum_version python_version
        (info.maximum_python_version.getD (str "100.0"))) valueErrorMsg
    if ¬ (python_min_match && python_max_match) then
      pure { st with ignored := setAdd st.ignored name }
    else
      let st :=
        if info.disabled_targets ≠ [] then
          if info.disabled_targets.any (fun p => rmatch p target_triple) then
            { st with disabled := setAdd st.disabled name }
          else st
        else st
      let st :=
        if info.setup_enabled.getD false then
          { st with setup_enabled_wanted := setAdd st.setup_enabled_wanted name }
        else st
      let st :=
        if info.config_c_only.getD false then
          { st with config_c_only_wanted := setAdd st.config_c_only_wanted name }
        else st
      pure st) ⟨[], [], [], []⟩

/-- `", ".join(sorted(s))` of the validation error messages. -/
def joinNames (l : List BStr) : BStr := joinSep (str ", ") (sortChars l)

/-- The five reconciliation raises of `derive_setup_local` (cpython.py
lines 296-327), in source order: each check raises immediately when its
violation set is non-empty, so only the first non-empty set is
reported. -/
def validateMeta (dist_modules setup_enabled_actual config_c_keys : List BStr)
    (declared setup_enabled_wanted config_c_only_wanted : List BStr) : Except BStr Unit :=
  let m1 := setDiff dist_modules declared
  if m1 ≠ [] then
    .error (str "missing extension modules from YAML: " ++ joinNames m1)
  else
    let m2 := setDiff setup_enabled_actual setup_enabled_wanted
    if m2 ≠ [] then
      .error (str "Setup enabled extensions missing YAML setup-enabled annotation: "
        ++ joinNames m2)
    else
      let m3 := setDiff setup_enabled_wanted setup_enabled_actual
      if m3 ≠ [] then
        .error (str "YAML setup-enabled extensions not present in Setup: " ++ joinNames m3)
      else
        let m4 := setDiff config_c_keys config_c_only_wanted
        if m4 ≠ [] then
          .error (str "config.c.in extensions missing YAML config-c-only annotation: "
            ++ joinNames m4)
        else
          let m5 := setDiff config_c_only_wanted config_c_keys
          if m5 ≠ [] then
            .error (str "YAML config-c-only extensions not present in config.c.in: "
              ++ joinNames m5)
          else .ok ()

/-- The `extra_cflags` accumulator: object path to collected define
tokens, in insertion order. -/
abbrev Cflags := List (BStr × List BStr)

/-- `extra_cflags.setdefault(k, []).append(v)`. -/
def cfAppend (m : Cflags) (k : BStr) (v : BStr) : Cflags :=
  match m with
  | [] => [(k, [v])]
  | (k0, vs) :: rest => if k0 = k then (k0, vs ++ [v]) :: rest else (k0, vs) :: cfAppend rest k v

/-- Lookup in the accumulator (absent keys give the empty list). -/
def cfLookup (m : Cflags) (k : BStr) : List BStr :=
  match m with
  | [] => []
  | (k0, vs) :: rest => if k0 = k then vs else cfLookup rest k

/-- The keys of the accumulator, in insertion order. -/
def cfKeys (m : Cflags) : List BStr := m.map (fun kv => kv.1)

/-- The per-line post-processing of `derive_setup_local` (cpython.py
lines 428-453): re-parse the synthesized line (`not parsed` is a fatal
internal error), record every `RE_DEFINE` match once per sorted object
path of the parsed line, strip the matches from the line, and fail if
any '=' remains. -/
def hoist_line (line : BStr) (python_version : BStr) (cf : Cflags) :
    Except BStr (BStr × Cflags) := do
  let parsed? ← parse_setup_line line python_version
  match parsed? with
  | none => .error (str "we should always parse a setup line we generated")
  | some parsed =>
    let cf := (finditerDefine parsed.line).foldl (fun cf0 m =>
      (sortChars parsed.posix_obj_paths).foldl (fun cf1 obj => cfAppend cf1 obj m) cf0) cf
    let line := subDefine line
    if hasChar '=' line then
      .error (str "= appears in EXTRA_MODULES line; will confuse makesetup: " ++ line)
    else .ok (line, cf)

/-- The module filter of the synthesis loop (cpython.py lines 347-354):
names in sorted order, skipping disabled, ignored, and modules without
a `sources` key. -/
def activeModules (extension_modules : List (BStr × ModuleInfo))
    (disabled ignored : List BStr) : List (BStr × ModuleInfo) :=
  (sortByKey (fun m => m.1) extension_modules).filter (fun m =>
    decide (m.1 ∉ disabled) && decide (m.1 ∉ ignored) && m.2.sources.isSome)

/-- The synthesis loop of `derive_setup_local` (cpython.py lines
345-453): one emitted line per active module, threading the
`extra_cflags` accumulator through `hoist_line`. -/
def synthesizeLines (extension_modules : List (BStr × ModuleInfo))
    (disabled ignored : List BStr) (python_version target_triple : BStr)
    (rmatch : BStr → BStr → Bool) : Except BStr (List BStr × Cflags) :=
  (activeModules extension_modules disabled ignored).foldlM (fun acc m => do
    let line ← derive_module_line m.1 m.2 python_version target_triple rmatch
    let lineCf ← hoist_line line python_version acc.2
    pure (acc.1 ++ [lineCf.1], lineCf.2)) ([], [])

/-- The Makefile-supplement lines (cpython.py lines 460-465), sorted by
object path. -/
def makeLines (cf : Cflags) : List BStr :=
  (sortChars (cfKeys cf)).map (fun target =>
    target ++ str ": PY_STDMODULE_CFLAGS += " ++ joinSep (str " ") (cfLookup cf target))

/-- The value returned by `derive_setup_local`. -/
structure DeriveResult where
  config_c_extensions : List (BStr × BStr)
  setup_dist : BStr
  setup_local : BStr
  make_data : BStr

deriving DecidableEq, Repr

/-- `derive_setup_local` (cpython.py lines 204-472).  The `tarfile`
extraction is modelled at its boundary: `setup_lines` is the list of
raw lines of `Modules/Setup` (as `readlines` returns them) and
`config_c_in` the text of `Modules/config.c.in`.  `extension_modules`
is the schema-validated YAML mapping, an assoc list with unique names;
`rmatch` models `re.match` on configuration-supplied target patterns. -/
def derive_setup_local (setup_lines : List BStr) (config_c_in : BStr)
    (python_version target_triple : BStr)
    (extension_modules : List (BStr × ModuleInfo))
    (rmatch : BStr → BStr → Bool) : Except BStr DeriveResult := do
  let meta ← collectMeta extension_modules python_version target_triple rmatch
  let sd := parseSetupDist setup_lines
  let config_c_extensions := parse_config_c config_c_in
  let dist_modules :=
    (sortChars (config_c_extensions.map (fun kv => kv.1))).foldl setAdd sd.dist_modules
  validateMeta dist_modules sd.setup_enabled_actual
    (config_c_extensions.map (fun kv => kv.1))
    (extension_modules.map (fun m => m.1)) meta.setup_enabled_wanted
    meta.config_c_only_wanted
  let linesCf ← synthesizeLines extension_modules meta.disabled meta.ignored
    python_version target_triple rmatch
  let dest_lines := [str "*static*"] ++ linesCf.1 ++ [str "\n*disabled*\n"]
    ++ sortChars meta.disabled ++ [[]]
  pure {
    config_c_extensions := config_c_extensions,
    setup_dist := joinCh '\n' setup_lines,
    setup_local := joinCh '\n' dest_lines,
    make_data := joinCh '\n' (makeLines linesCf.2) }

/-- A token that survives whitespace tokenization and comment stripping:
nonempty, without whitespace bytes and without '#'. -/
def goodTok (t : BStr) : Prop := t ≠ [] ∧ ∀ c ∈ t, isSpaceB c = false ∧ c ≠ '#'

instance (t : BStr) : Decidable (goodTok t) := by
  unfold goodTok
  infer_instance

/-- A string whose bytes are all token-safe (may be empty). -/
def plainStr (t : BStr) : Prop := ∀ c ∈ t, isSpaceB c = false ∧ c ≠ '#'

instance (t : BStr) : Decidable (plainStr t) := by
  unfold plainStr
  infer_instance

/-- A raw-token string: token-safe, nonempty, and not the literal word
`-framework` (which makes the parser read the following word). -/
def goodRaw (t : BStr) : Prop := goodTok t ∧ t ≠ str "-framework"

instance (t : BStr) : Decidable (goodRaw t) := by
  unfold goodRaw
  infer_instance

/-- The text a token list contributes to a line: each token preceded by
exactly one space. -/
def spacedToks (toks : List BStr) : BStr := (toks.map (fun t => ' ' :: t)).join

/-- The last synthesized token is not a bare `-framework`. -/
def lastNotFm (toks : List BStr) : Prop := toks.getLast? ≠ some (str "-framework")

/-- The shape invariant of a synthesized line: the module name followed
by space-prefixed well-behaved tokens, with no dangling `-framework`. -/
def lineInv (name line : BStr) : Prop :=
  ∃ toks, line = name ++ spacedToks toks ∧ (∀ t ∈ toks, goodTok t) ∧ lastNotFm toks

/-- Well-behavedness of the YAML strings of one module: every string
that can reach the synthesized line is token-safe (no whitespace, no
'#', and no bare `-framework` or empty string where the string becomes
a whole token). -/
def GoodInfo (info : ModuleInfo) : Prop :=
  (∀ s ∈ info.sources.getD [], goodRaw s) ∧
  (∀ e ∈ info.sources_conditional, goodRaw e.source) ∧
  (∀ d ∈ info.defines, plainStr d) ∧
  (∀ e ∈ info.defines_conditional, plainStr e.define) ∧
  (∀ p ∈ info.includes, plainStr p) ∧
  (∀ e ∈ info.includes_conditional, plainStr e.path) ∧
  (∀ p ∈ info.includes_deps, plainStr p) ∧
  (∀ lib ∈ info.links, plainStr lib) ∧
  (∀ e ∈ info.links_conditional, plainStr e.name) ∧
  (∀ fw ∈ info.frameworks, goodRaw fw) ∧
  (∀ e ∈ info.linker_args, ∀ a ∈ e.args, goodRaw a)

instance (info : ModuleInfo) : Decidable (GoodInfo info) := by
  unfold GoodInfo
  infer_instance

/-- The YAML mapping of the C1 scenarios: one module `foo`, with a
source and the setup-enabled annotation. -/
def c1Info : ModuleInfo := { sources := some [str "foo.c"], setup_enabled := some true }

theorem leadsWith_length {p l : BStr} (h : leadsWith p l = true) : p.length ≤ l.length := by
  induction p generalizing l with
  | nil => simp
  | cons a xs ih =>
    cases l with
    | nil => simp [leadsWith] at h
    | cons b ys =>
      simp only [leadsWith, Bool.and_eq_true] at h
      simpa using ih h.2

theorem matchDefineAt_length {l m after : BStr}
    (h : matchDefineAt l = some (m, after)) : after.length < l.length := by
  unfold matchDefineAt at h
  split at h
  case isFalse => simp at h
  rename_i hlead
  simp only [] at h
  split at h
  case isTrue => simp at h
  split at h
  case h_2 => simp at h
  rename_i tail heq
  split at h
  case isTrue => simp at h
  simp only [Option.some.injEq, Prod.mk.injEq] at h
  have h2 := h.2
  have e1 : (List.drop (List.takeWhile (fun c => c ≠ '=') (l.drop 2)).length
      (l.drop 2)).length = (l.drop 2).length -
      (List.takeWhile (fun c => c ≠ '=') (l.drop 2)).length := by
    simp
    omega
  rw [heq] at e1
  have e2 : (l.drop 2).length = l.length - 2 := by simp
  have e3 : 2 ≤ l.length := leadsWith_length hlead
  have e4 : after.length ≤ tail.length := by
    rw [← h2]
    simp
  simp only [List.length_cons] at e1
  omega

theorem leadsWith_iff {p l : BStr} : leadsWith p l = true ↔ ∃ t, l = p ++ t := by
  induction p generalizing l with
  | nil => simp [leadsWith]
  | cons a xs ih =>
    cases l with
    | nil => simp [leadsWith]
    | cons b ys =>
      simp only [leadsWith, Bool.and_eq_true, decide_eq_true_eq, ih, List.cons_append,
        List.cons.injEq]
      constructor
      · rintro ⟨hab, t, ht⟩
        exact ⟨t, hab.symm, ht⟩
      · rintro ⟨t, hba, ht⟩
        exact ⟨hba.symm, t, ht⟩

theorem containsSub_iff {n h : BStr} : containsSub n h = true ↔ ∃ a b, h = a ++ n ++ b := by
  induction h with
  | nil =>
    simp only [containsSub, List.isEmpty_iff]
    constructor
    · rintro rfl
      exact ⟨[], [], rfl⟩
    · rintro ⟨a, b, hab⟩
      have := hab.symm
      simp only [List.append_assoc, List.append_eq_nil] at this
      exact this.2.1
  | cons c rest ih =>
    simp only [containsSub, Bool.or_eq_true, ih, leadsWith_iff]
    constructor
    · rintro (⟨t, ht⟩ | ⟨a, b, hab⟩)
      · exact ⟨[], t, by simp [ht]⟩
      · exact ⟨c :: a, b, by simp [hab]⟩
    · rintro ⟨a, b, hab⟩
      cases a with
      | nil => exact Or.inl ⟨b, by simpa using hab⟩
      | cons x a2 =>
        right
        refine ⟨a2, b, ?_⟩
        simp only [List.cons_append, List.cons.injEq] at hab
        exact hab.2

/-- C6: for every library name and target triple, the link-flag rendering
used for both unconditional and target-conditional link libraries
(`link_for_target`, called at cpython.py lines 413 and 417) produces the
hidden-symbol variant exactly when the target triple contains the
substring "-apple-", and the ordinary `-l` link flag for every other
triple. -/
theorem C6_hidden_link_rendering (lib target_triple : BStr) :
    (link_for_target lib target_triple = str "-Xlinker -hidden-l" ++ lib ↔
      ∃ a b, target_triple = a ++ str "-apple-" ++ b) ∧
    (link_for_target lib target_triple = str "-l" ++ lib ↔
      ¬ ∃ a b, target_triple = a ++ str "-apple-" ++ b) := by
  have h18 : (str "-Xlinker -hidden-l").length = 18 := by decide
  have h2 : (str "-l").length = 2 := by decide
  have hne : (str "-Xlinker -hidden-l" ++ lib).length ≠ (str "-l" ++ lib).length := by
    simp only [List.length_append, h18, h2]
    omega
  unfold link_for_target
  by_cases hc : containsSub (str "-apple-") target_triple = true
  · rw [if_pos hc]
    have hap := containsSub_iff.mp hc
    refine ⟨⟨fun _ => hap, fun _ => rfl⟩, ?_, ?_⟩
    · intro he
      exact absurd (congrArg List.length he) hne
    · intro hn
      exact absurd hap hn
  · rw [if_neg hc]
    have hap : ¬ ∃ a b, target_triple = a ++ str "-apple-" ++ b := fun hex =>
      hc (containsSub_iff.mpr hex)
    refine ⟨⟨?_, ?_⟩, fun _ => hap, fun _ => rfl⟩
    · intro he
      exact absurd (congrArg List.length he).symm hne
    · intro hx
      exact absurd hx hap

theorem leChars_refl (a : BStr) : leChars a a = true := by
  induction a with
  | nil => rfl
  | cons x xs ih => simpa [leChars] using ih

theorem leChars_total (a b : BStr) : leChars a b = true ∨ leChars b a = true := by
  induction a generalizing b with
  | nil => exact Or.inl rfl
  | cons x xs ih =>
    cases b with
    | nil => exact Or.inr rfl
    | cons y ys =>
      by_cases hxy : x = y
      · subst hxy
        rcases ih ys with h | h
        · exact Or.inl (by simpa [leChars] using h)
        · exact Or.inr (by simpa [leChars] using h)
      · rcases lt_trichotomy x y with hlt | heq | hgt
        · exact Or.inl (by simp [leChars, hxy, hlt])
        · exact absurd heq hxy
        · exact Or.inr (by simp [leChars, Ne.symm hxy, hgt])

theorem leChars_trans {a b c : BStr} (hab : leChars a b = true)
    (hbc : leChars b c = true) : leChars a c = true := by
  induction a generalizing b c with
  | nil => rfl
  | cons x xs ih =>
    cases b with
    | nil => simp [leChars] at hab
    | cons y ys =>
      cases c with
      | nil => simp [leChars] at hbc
      | cons z zs =>
        simp only [leChars] at hab hbc ⊢
        by_cases hxy : x = y
        · subst hxy
          rw [if_pos rfl] at hab
          by_cases hyz : x = z
          · subst hyz
            rw [if_pos rfl] at hbc ⊢
            exact ih hab hbc
          · rw [if_neg hyz] at hbc ⊢
            exact hbc
        · rw [if_neg hxy] at hab
          by_cases hyz : y = z
          · subst hyz
            rw [if_neg hxy]
            exact hab
          · rw [if_neg hyz] at hbc
            have hxz : x < z :=
              lt_trans (of_decide_eq_true hab) (of_decide_eq_true hbc)
            rw [if_neg (ne_of_lt hxz)]
            exact decide_eq_true hxz

theorem insSortBy_perm (f : α → BStr) (x : α) (l : List α) :
    List.Perm (insSortBy f x l) (x :: l) := by
  induction l with
  | nil => exact List.Perm.refl _
  | cons y ys ih =>
    unfold insSortBy
    by_cases h : leChars (f x) (f y) = true
    · rw [if_pos h]
    · rw [if_neg h]
      exact List.Perm.trans (List.Perm.cons y ih) (List.Perm.swap x y ys)

theorem sortByKey_perm (f : α → BStr) (l : List α) :
    List.Perm (sortByKey f l) l := by
  induction l with
  | nil => exact List.Perm.refl _
  | cons a l ih =>
    exact List.Perm.trans (insSortBy_perm f a (sortByKey f l)) (List.Perm.cons a ih)

theorem mem_sortByKey {f : α → BStr} {l : List α} {x : α} :
    x ∈ sortByKey f l ↔ x ∈ l :=
  (sortByKey_perm f l).mem_iff

theorem insSortBy_sorted (f : α → BStr) (x : α) (l : List α)
    (h : List.Pairwise (fun a b => leChars (f a) (f b) = true) l) :
    List.Pairwise (fun a b => leChars (f a) (f b) = true) (insSortBy f x l) := by
  induction l with
  | nil => simp [insSortBy]
  | cons y ys ih =>
    unfold insSortBy
    by_cases hc : leChars (f x) (f y) = true
    · rw [if_pos hc]
      refine List.Pairwise.cons ?_ h
      intro z hz
      rcases hz with _ | hz
      · exact hc
      · exact leChars_trans hc (List.rel_of_pairwise_cons h (by assumption))
    · rw [if_neg hc]
      have hyx : leChars (f y) (f x) = true := by
        rcases leChars_total (f x) (f y) with h1 | h1
        · exact absurd h1 hc
        · exact h1
      refine List.Pairwise.cons ?_ (ih (List.Pairwise.sublist (List.sublist_cons_self y ys) h))
      intro z hz
      have hz2 : z ∈ x :: ys := (insSortBy_perm f x ys).subset hz
      rcases hz2 with _ | hz2
      · exact hyx
      · exact List.rel_of_pairwise_cons h (by assumption)

theorem sortByKey_sorted (f : α → BStr) (l : List α) :
    List.Pairwise (fun a b => leChars (f a) (f b) = true) (sortByKey f l) := by
  induction l with
  | nil => exact List.Pairwise.nil
  | cons a l ih => exact insSortBy_sorted f a (sortByKey f l) ih

theorem sortChars_sorted (l : List BStr) :
    List.Pairwise (fun a b => leChars a b = true) (sortChars l) :=
  sortByKey_sorted id l

theorem mem_sortChars {l : List BStr} {x : BStr} : x ∈ sortChars l ↔ x ∈ l :=
  mem_sortByKey

theorem sortChars_nodup {l : List BStr} (h : l.Nodup) : (sortChars l).Nodup :=
  (sortByKey_perm id l).nodup_iff.mpr h

theorem wordsRev_skip_tok {t : BStr} (hns : ∀ c ∈ t, isSpaceB c = false) :
    ∀ (cur rest : BStr), wordsRev cur (t ++ rest) = wordsRev (t.reverse ++ cur) rest := by
  induction t with
  | nil => intro cur rest; rfl
  | cons c t2 ih =>
    intro cur rest
    have hc : isSpaceB c = false := hns c (by simp)
    have ih2 := ih (fun d hd => hns d (by simp [hd]))
    simp only [List.cons_append, wordsRev, hc, Bool.false_eq_true, if_false, List.append_eq]
    rw [ih2 (c :: cur) rest]
    simp [List.append_assoc]

theorem wordsRev_spaced {toks : List BStr} (hg : ∀ t ∈ toks, goodTok t) :
    ∀ cur : BStr, cur ≠ [] → wordsRev cur (spacedToks toks) = cur.reverse :: toks := by
  induction toks with
  | nil =>
    intro cur hcur
    simp [spacedToks, wordsRev, List.isEmpty_iff, hcur]
  | cons t ts ih =>
    intro cur hcur
    have hg1 := hg t (by simp)
    have hsp : spacedToks (t :: ts) = ' ' :: (t ++ spacedToks ts) := by
      simp [spacedToks]
    rw [hsp]
    have hsp2 : isSpaceB ' ' = true := by decide
    have hstep : wordsRev cur (' ' :: (t ++ spacedToks ts)) =
        cur.reverse :: wordsRev [] (t ++ spacedToks ts) := by
      simp [wordsRev, hsp2, List.isEmpty_iff, hcur]
    rw [hstep, wordsRev_skip_tok (fun c hc => (hg1.2 c hc).1) [] (spacedToks ts)]
    have htrev : t.reverse ++ ([] : BStr) = t.reverse := by simp
    rw [htrev, ih (fun u hu => hg u (by simp [hu])) t.reverse
      (by simpa using fun h => hg1.1 (by simpa using congrArg List.reverse h))]
    simp

theorem wordsOf_name_spaced {name : BStr} {toks : List BStr}
    (hn : goodTok name) (hg : ∀ t ∈ toks, goodTok t) :
    wordsOf (name ++ spacedToks toks) = name :: toks := by
  unfold wordsOf
  rw [wordsRev_skip_tok (fun c hc => (hn.2 c hc).1) [] (spacedToks toks)]
  have htrev : name.reverse ++ ([] : BStr) = name.reverse := by simp
  rw [htrev, wordsRev_spaced hg name.reverse
    (by simpa using fun h => hn.1 (by simpa using congrArg List.reverse h))]
  simp

theorem meets_min_eq {g w : BStr} {gp wp : Int × Int}
    (hg : pyPairB g = some gp) (hw : pyPairB w = some wp) :
    meets_python_minimum_version g w = some (tupleGE gp wp) := by
  unfold meets_python_minimum_version
  rw [hg, hw]

theorem meets_max_eq {g w : BStr} {gp wp : Int × Int}
    (hg : pyPairB g = some gp) (hw : pyPairB w = some wp) :
    meets_python_maximum_version g w = some (tupleLE gp wp) := by
  unfold meets_python_maximum_version
  rw [hg, hw]

theorem parseWords_cons (pv w : BStr) (rest : List BStr) (acc : ParseAcc) :
    parseWords pv (w :: rest) acc =
      (if endsDotC w then
        match meets_python_minimum_version pv (str "3.11") with
        | none => .error (str "ValueError: invalid python version")
        | some minOk =>
          parseWords pv rest { acc with objs := setAdd acc.objs (setupObjPath w (minOk && hasChar '/' w)) }
      else if leadsWith (str "-l") w then
        parseWords pv rest { acc with links := setAdd acc.links (w.drop 2) }
      else if leadsWith (str "-hidden-l") w then
        parseWords pv rest { acc with links := setAdd acc.links (w.drop 9) }
      else if w = str "-framework" then
        match rest with
        | [] => .error (str "IndexError: list index out of range")
        | nxt :: _ =>
          parseWords pv rest { acc with frameworks := setAdd acc.frameworks nxt }
      else parseWords pv rest acc) := rfl

theorem parseWords_ok {python_version : BStr} {vp : Int × Int}
    (hv : pyPairB python_version = some vp) :
    ∀ (toks : List BStr) (acc : ParseAcc), lastNotFm toks →
      ∃ acc2, parseWords python_version toks acc = .ok acc2 := by
  intro toks
  induction toks with
  | nil =>
    intro acc _
    exact ⟨acc, rfl⟩
  | cons w rest ih =>
    intro acc hlast
    have hrest : lastNotFm rest := by
      cases rest with
      | nil => simp [lastNotFm]
      | cons r rs =>
        unfold lastNotFm at hlast ⊢
        rwa [List.getLast?_cons_cons] at hlast
    have hmeets := meets_min_eq hv (show pyPairB (str "3.11") = some (3, 11) by decide)
    rw [parseWords_cons]
    by_cases h1 : endsDotC w = true
    · rw [if_pos h1, hmeets]
      exact ih _ hrest
    · rw [if_neg h1]
      by_cases h2 : leadsWith (str "-l") w = true
      · rw [if_pos h2]
        exact ih _ hrest
      · rw [if_neg h2]
        by_cases h3 : leadsWith (str "-hidden-l") w = true
        · rw [if_pos h3]
          exact ih _ hrest
        · rw [if_neg h3]
          by_cases h4 : w = str "-framework"
          · rw [if_pos h4]
            cases rest with
            | nil =>
              exfalso
              apply hlast
              simp [h4]
            | cons n ns => exact ih _ hrest
          · rw [if_neg h4]
            exact ih _ hrest

theorem lineInv_base (name : BStr) : lineInv name name := by
  refine ⟨[], by simp [spacedToks], by simp, ?_⟩
  simp [lastNotFm]

theorem lastNotFm_append {t1 t2 : List BStr} (h1 : lastNotFm t1) (h2 : lastNotFm t2) :
    lastNotFm (t1 ++ t2) := by
  cases ht2 : t2 with
  | nil => simpa using h1
  | cons x xs =>
    unfold lastNotFm at h2 ⊢
    rw [List.getLast?_append_of_ne_nil t1 (show x :: xs ≠ [] by simp)]
    rw [ht2] at h2
    exact h2

theorem lineInv_chunk {name ln : BStr} {chunk : List BStr} (hI : lineInv name ln)
    (hg : ∀ t ∈ chunk, goodTok t) (hl : lastNotFm chunk ∨ chunk = []) :
    lineInv name (ln ++ spacedToks chunk) := by
  obtain ⟨toks, heq, htg, hlast⟩ := hI
  refine ⟨toks ++ chunk, ?_, ?_, ?_⟩
  · rw [heq]
    simp [spacedToks, List.append_assoc]
  · intro t ht
    rcases List.mem_append.mp ht with h | h
    · exact htg t h
    · exact hg t h
  · rcases hl with h | h
    · exact lastNotFm_append hlast h
    · subst h
      simpa using hlast

theorem lineInv_foldl {β : Type} (step : BStr → β → BStr) (l : List β)
    (line name : BStr) (hI : lineInv name line)
    (hstep : ∀ ln e, e ∈ l → lineInv name ln → lineInv name (step ln e)) :
    lineInv name (l.foldl step line) := by
  induction l generalizing line with
  | nil => exact hI
  | cons e es ih =>
    exact ih (step line e) (hstep line e (by simp) hI)
      (fun ln u hu h => hstep ln u (by simp [hu]) h)

theorem lineInv_foldlM {β : Type} (step : BStr → β → Except BStr BStr) (l : List β)
    (line name L : BStr) (hI : lineInv name line)
    (hstep : ∀ ln e r, e ∈ l → lineInv name ln → step ln e = .ok r → lineInv name r)
    (hfold : l.foldlM step line = .ok L) : lineInv name L := by
  induction l generalizing line with
  | nil =>
    simp only [List.foldlM_nil, pure, Except.pure] at hfold
    cases hfold
    exact hI
  | cons e es ih =>
    simp only [List.foldlM_cons] at hfold
    cases hse : step line e with
    | error msg =>
      rw [hse] at hfold
      simp [Bind.bind, Except.bind] at hfold
    | ok r =>
      rw [hse] at hfold
      simp only [Bind.bind, Except.bind] at hfold
      exact ih r (hstep line e r (by simp) hI hse)
        (fun ln u q hu h hq => hstep ln u q (by simp [hu]) h hq) hfold

theorem spacedToks_one (t : BStr) : spacedToks [t] = ' ' :: t := by
  simp [spacedToks]

theorem spacedToks_two (t u : BStr) : spacedToks [t, u] = ' ' :: (t ++ ' ' :: u) := by
  simp [spacedToks]

theorem lastNotFm_single {t : BStr} (h : t ≠ str "-framework") : lastNotFm [t] := by
  simpa [lastNotFm] using h

theorem lastNotFm_pair {t u : BStr} (h : u ≠ str "-framework") : lastNotFm [t, u] := by
  simpa [lastNotFm] using h

theorem lineInv_app_one {name ln : BStr} (hI : lineInv name ln) {t : BStr}
    (hg : goodTok t) (hfm : t ≠ str "-framework") : lineInv name (ln ++ spacedToks [t]) :=
  lineInv_chunk hI (by simpa using hg) (Or.inl (lastNotFm_single hfm))

theorem lineInv_app_two {name ln : BStr} (hI : lineInv name ln) {t u : BStr}
    (hgt : goodTok t) (hgu : goodTok u) (hfm : u ≠ str "-framework") :
    lineInv name (ln ++ spacedToks [t, u]) := by
  refine lineInv_chunk hI ?_ (Or.inl (lastNotFm_pair hfm))
  intro v hv
  simp only [List.mem_cons, List.mem_singleton, List.not_mem_nil, or_false] at hv
  rcases hv with rfl | rfl
  · exact hgt
  · exact hgu

theorem goodTok_pre {pre t : BStr} (h1 : goodTok pre) (h2 : plainStr t) :
    goodTok (pre ++ t) := by
  refine ⟨fun he => h1.1 (List.append_eq_nil.mp he).1, ?_⟩
  intro c hc
  rcases List.mem_append.mp hc with h | h
  · exact h1.2 c h
  · exact h2 c h

theorem cons2_ne_fm {x : Char} (hx : x ≠ 'f') (rest : BStr) :
    ('-' :: x :: rest) ≠ str "-framework" := by
  intro h
  rw [show str "-framework" = '-' :: 'f' :: str "ramework" from rfl] at h
  injection h with _ h2
  injection h2 with h3 _
  exact hx h3

theorem app_sp (ln s : BStr) : ln ++ str " " ++ s = ln ++ spacedToks [s] := by
  rw [spacedToks_one, show str " " = [' '] from rfl]
  simp

theorem app_spD (ln d : BStr) :
    ln ++ str " -D" ++ d = ln ++ spacedToks [str "-D" ++ d] := by
  rw [spacedToks_one, show str " -D" = ' ' :: str "-D" from rfl]
  simp

theorem app_spI (ln p : BStr) :
    ln ++ str " -I" ++ p = ln ++ spacedToks [str "-I" ++ p] := by
  rw [spacedToks_one, show str " -I" = ' ' :: str "-I" from rfl]
  simp

theorem app_spDeps (ln p : BStr) :
    ln ++ str " -I/tools/deps/" ++ p = ln ++ spacedToks [str "-I/tools/deps/" ++ p] := by
  rw [spacedToks_one, show str " -I/tools/deps/" = ' ' :: str "-I/tools/deps/" from rfl]
  simp

theorem app_spFw (ln fw : BStr) :
    ln ++ str " -framework " ++ fw = ln ++ spacedToks [str "-framework", fw] := by
  rw [spacedToks_two, show str " -framework " = (' ' :: str "-framework") ++ [' '] from rfl]
  simp

theorem app_spXl (ln a : BStr) :
    ln ++ str " -Xlinker " ++ a = ln ++ spacedToks [str "-Xlinker", a] := by
  rw [spacedToks_two, show str " -Xlinker " = (' ' :: str "-Xlinker") ++ [' '] from rfl]
  simp

theorem app_spLinkApple (ln lib : BStr) :
    ln ++ str " " ++ (str "-Xlinker -hidden-l" ++ lib) =
      ln ++ spacedToks [str "-Xlinker", str "-hidden-l" ++ lib] := by
  rw [spacedToks_two,
    show str "-Xlinker -hidden-l" = str "-Xlinker" ++ (' ' :: str "-hidden-l") from rfl,
    show str " " = [' '] from rfl]
  simp

theorem app_spLinkPlain (ln lib : BStr) :
    ln ++ str " " ++ (str "-l" ++ lib) = ln ++ spacedToks [str "-l" ++ lib] := by
  rw [spacedToks_one, show str " " = [' '] from rfl]
  simp

theorem scStep_ok_cases {pv tt : BStr} {rmatch : BStr → BStr → Bool}
    {ln r : BStr} {e : CondSource}
    (h : scStep pv tt rmatch ln e = .ok r) :
    r = ln ∨ r = ln ++ str " " ++ e.source := by
  unfold scStep at h
  cases ho1 : meets_python_minimum_version pv (e.minimum_python_version.getD (str "1.0")) with
  | none =>
    rw [ho1] at h
    simp [liftOpt, Bind.bind, Except.bind] at h
  | some b1 =>
    rw [ho1] at h
    simp only [liftOpt, Bind.bind, Except.bind] at h
    cases ho2 : meets_python_maximum_version pv (e.maximum_python_version.getD (str "100.0")) with
    | none =>
      rw [ho2] at h
      simp [liftOpt] at h
    | some b2 =>
      rw [ho2] at h
      simp only [liftOpt] at h
      by_cases hc : ((if e.targets ≠ [] then e.targets.any (fun p => rmatch p tt)
          else true) && (b1 && b2)) = true
      · rw [if_pos hc] at h
        simp only [pure, Except.pure, Except.ok.injEq] at h
        exact Or.inr h.symm
      · rw [if_neg hc] at h
        simp only [pure, Except.pure, Except.ok.injEq] at h
        exact Or.inl h.symm

theorem dcStep_ok_cases {pv tt : BStr} {rmatch : BStr → BStr → Bool}
    {ln r : BStr} {e : CondDefine}
    (h : dcStep pv tt rmatch ln e = .ok r) :
    r = ln ∨ r = ln ++ str " -D" ++ e.define := by
  unfold dcStep at h
  cases ho1 : meets_python_minimum_version pv (e.minimum_python_version.getD (str "1.0")) with
  | none =>
    rw [ho1] at h
    simp [liftOpt, Bind.bind, Except.bind] at h
  | some b1 =>
    rw [ho1] at h
    simp only [liftOpt, Bind.bind, Except.bind] at h
    cases ho2 : meets_python_maximum_version pv (e.minimum_python_version.getD (str "100.0")) with
    | none =>
      rw [ho2] at h
      simp [liftOpt] at h
    | some b2 =>
      rw [ho2] at h
      simp only [liftOpt] at h
      by_cases hc : ((if e.targets ≠ [] then e.targets.any (fun p => rmatch p tt)
          else true) && (b1 && b2)) = true
      · rw [if_pos hc] at h
        simp only [pure, Except.pure, Except.ok.injEq] at h
        exact Or.inr h.symm
      · rw [if_neg hc] at h
        simp only [pure, Except.pure, Except.ok.injEq] at h
        exact Or.inl h.symm

theorem goodTok_D {d : BStr} (hd : plainStr d) : goodTok (str "-D" ++ d) :=
  goodTok_pre (by decide) hd

theorem goodTok_I {p : BStr} (hp : plainStr p) : goodTok (str "-I" ++ p) :=
  goodTok_pre (by decide) hp

theorem goodTok_deps {p : BStr} (hp : plainStr p) : goodTok (str "-I/tools/deps/" ++ p) :=
  goodTok_pre (by decide) hp

theorem goodTok_l {l : BStr} (hl : plainStr l) : goodTok (str "-l" ++ l) :=
  goodTok_pre (by decide) hl

theorem goodTok_hl {l : BStr} (hl : plainStr l) : goodTok (str "-hidden-l" ++ l) :=
  goodTok_pre (by decide) hl

theorem ne_fm_D (d : BStr) : str "-D" ++ d ≠ str "-framework" := by
  rw [show str "-D" ++ d = '-' :: 'D' :: d from rfl]
  exact cons2_ne_fm (by decide) d

theorem ne_fm_I (p : BStr) : str "-I" ++ p ≠ str "-framework" := by
  rw [show str "-I" ++ p = '-' :: 'I' :: p from rfl]
  exact cons2_ne_fm (by decide) p

theorem ne_fm_deps (p : BStr) : str "-I/tools/deps/" ++ p ≠ str "-framework" := by
  rw [show str "-I/tools/deps/" ++ p = '-' :: 'I' :: (str "/tools/deps/" ++ p) from rfl]
  exact cons2_ne_fm (by decide) _

theorem ne_fm_l (l : BStr) : str "-l" ++ l ≠ str "-framework" := by
  rw [show str "-l" ++ l = '-' :: 'l' :: l from rfl]
  exact cons2_ne_fm (by decide) l

theorem ne_fm_hl (l : BStr) : str "-hidden-l" ++ l ≠ str "-framework" := by
  rw [show str "-hidden-l" ++ l = '-' :: 'h' :: (str "idden-l" ++ l) from rfl]
  exact cons2_ne_fm (by decide) _

theorem lineInv_link {name ln lib tt : BStr} (hI : lineInv name ln)
    (hlib : plainStr lib) :
    lineInv name (ln ++ str " " ++ link_for_target lib tt) := by
  unfold link_for_target
  by_cases happ : containsSub (str "-apple-") tt = true
  · rw [if_pos happ, app_spLinkApple]
    exact lineInv_app_two hI (by decide) (goodTok_hl hlib) (ne_fm_hl lib)
  · rw [if_neg happ, app_spLinkPlain]
    exact lineInv_app_one hI (goodTok_l hlib) (ne_fm_l lib)

theorem tailStages_inv {name ln tt : BStr} {info : ModuleInfo}
    {rmatch : BStr → BStr → Bool} (hI : lineInv name ln)
    (hinc : ∀ p ∈ info.includes, plainStr p)
    (hic : ∀ e ∈ info.includes_conditional, plainStr e.path)
    (hdeps : ∀ p ∈ info.includes_deps, plainStr p)
    (hlnk : ∀ lib ∈ info.links, plainStr lib)
    (hlc : ∀ e ∈ info.links_conditional, plainStr e.name)
    (hfw : ∀ fw ∈ info.frameworks, goodRaw fw)
    (hla : ∀ e ∈ info.linker_args, ∀ a ∈ e.args, goodRaw a) :
    lineInv name (tailStages info tt rmatch ln) := by
  unfold tailStages
  have h1 : lineInv name
      (List.foldl (fun ln p => ln ++ str " -I" ++ p) ln info.includes) := by
    refine lineInv_foldl _ _ _ _ hI ?_
    intro ln2 p hp hI2
    rw [app_spI]
    exact lineInv_app_one hI2 (goodTok_I (hinc p hp)) (ne_fm_I p)
  have h2 : lineInv name
      (List.foldl (fun ln entry =>
        if entry.targets.any (fun p => rmatch p tt) then ln ++ str " -I" ++ entry.path
        else ln)
        (List.foldl (fun ln p => ln ++ str " -I" ++ p) ln info.includes)
        info.includes_conditional) := by
    refine lineInv_foldl _ _ _ _ h1 ?_
    intro ln2 e he hI2
    by_cases hc : e.targets.any (fun p => rmatch p tt) = true
    · rw [if_pos hc, app_spI]
      exact lineInv_app_one hI2 (goodTok_I (hic e he)) (ne_fm_I e.path)
    · rw [if_neg hc]
      exact hI2
  have h3 : ∀ base : BStr, lineInv name base → lineInv name
      (List.foldl (fun ln p =>
        if containsSub (str "-apple-") tt = true then ln
        else ln ++ str " -I/tools/deps/" ++ p) base info.includes_deps) := by
    intro base hb
    refine lineInv_foldl _ _ _ _ hb ?_
    intro ln2 p hp hI2
    by_cases happ : containsSub (str "-apple-") tt = true
    · rw [if_pos happ]
      exact hI2
    · rw [if_neg happ, app_spDeps]
      exact lineInv_app_one hI2 (goodTok_deps (hdeps p hp)) (ne_fm_deps p)
  have h4 : ∀ base : BStr, lineInv name base → lineInv name
      (List.foldl (fun ln lib => ln ++ str " " ++ link_for_target lib tt)
        base info.links) := by
    intro base hb
    refine lineInv_foldl _ _ _ _ hb ?_
    intro ln2 lib hlib hI2
    exact lineInv_link hI2 (hlnk lib hlib)
  have h5 : ∀ base : BStr, lineInv name base → lineInv name
      (List.foldl (fun ln entry =>
        if entry.targets.any (fun p => rmatch p tt) then
          ln ++ str " " ++ link_for_target entry.name tt
        else ln) base info.links_conditional) := by
    intro base hb
    refine lineInv_foldl _ _ _ _ hb ?_
    intro ln2 e he hI2
    by_cases hc : e.targets.any (fun p => rmatch p tt) = true
    · rw [if_pos hc]
      exact lineInv_link hI2 (hlc e he)
    · rw [if_neg hc]
      exact hI2
  have h6 : ∀ base : BStr, lineInv name base → lineInv name
      (if containsSub (str "-apple-") tt = true then
        List.foldl (fun ln fw => ln ++ str " -framework " ++ fw) base info.frameworks
      else base) := by
    intro base hb
    by_cases happ : containsSub (str "-apple-") tt = true
    · rw [if_pos happ]
      refine lineInv_foldl _ _ _ _ hb ?_
      intro ln2 fw hfw2 hI2
      rw [app_spFw]
      exact lineInv_app_two hI2 (by decide) (hfw fw hfw2).1 (hfw fw hfw2).2
    · rw [if_neg happ]
      exact hb
  refine lineInv_foldl _ _ _ _ (h6 _ (h5 _ (h4 _ (h3 _ h2)))) ?_
  intro ln2 e he hI2
  by_cases hc : e.targets.any (fun p => rmatch p tt) = true
  · rw [if_pos hc]
    refine lineInv_foldl _ _ _ _ hI2 ?_
    intro ln3 a ha hI3
    rw [app_spXl]
    exact lineInv_app_two hI3 (by decide) (hla e he a ha).1 (hla e he a ha).2
  · rw [if_neg hc]
    exact hI2

theorem derive_module_line_shape {name : BStr} {info : ModuleInfo}
    {pv tt L : BStr} {rmatch : BStr → BStr → Bool}
    (hG : GoodInfo info)
    (hok : derive_module_line name info pv tt rmatch = .ok L) : lineInv name L := by
  obtain ⟨hsrc, hsc, hdef, hdc, hinc, hic, hdeps, hlnk, hlc, hfw, hla⟩ := hG
  unfold derive_module_line at hok
  dsimp only [] at hok
  have inv1 : lineInv name
      (List.foldl (fun ln s => ln ++ str " " ++ s) name (info.sources.getD [])) := by
    refine lineInv_foldl _ _ _ _ (lineInv_base name) ?_
    intro ln s hs hI
    rw [app_sp]
    exact lineInv_app_one hI (hsrc s hs).1 (hsrc s hs).2
  cases h1 : info.sources_conditional.foldlM (scStep pv tt rmatch)
      (List.foldl (fun ln s => ln ++ str " " ++ s) name (info.sources.getD [])) with
  | error e =>
    rw [h1] at hok
    simp [Bind.bind, Except.bind] at hok
  | ok l2 =>
    rw [h1] at hok
    simp only [Bind.bind, Except.bind] at hok
    have inv2 : lineInv name l2 := by
      refine lineInv_foldlM _ _ _ _ _ inv1 ?_ h1
      intro ln e r he hI hre
      rcases scStep_ok_cases hre with rfl | rfl
      · exact hI
      · rw [app_sp]
        exact lineInv_app_one hI (hsc e he).1 (hsc e he).2
    have inv3 : lineInv name
        (List.foldl (fun ln d => ln ++ str " -D" ++ d) l2 info.defines) := by
      refine lineInv_foldl _ _ _ _ inv2 ?_
      intro ln d hd hI
      rw [app_spD]
      exact lineInv_app_one hI (goodTok_D (hdef d hd)) (ne_fm_D d)
    cases h2 : info.defines_conditional.foldlM (dcStep pv tt rmatch)
        (List.foldl (fun ln d => ln ++ str " -D" ++ d) l2 info.defines) with
    | error e =>
      rw [h2] at hok
      simp [Bind.bind, Except.bind] at hok
    | ok l4 =>
      rw [h2] at hok
      simp only [Bind.bind, Except.bind, pure, Except.pure, Except.ok.injEq] at hok
      have inv4 : lineInv name l4 := by
        refine lineInv_foldlM _ _ _ _ _ inv3 ?_ h2
        intro ln e r he hI hre
        rcases dcStep_ok_cases hre with rfl | rfl
        · exact hI
        · rw [app_spD]
          exact lineInv_app_one hI (goodTok_D (hdc e he)) (ne_fm_D e.define)
      rw [← hok]
      exact tailStages_inv inv4 hinc hic hdeps hlnk hlc hfw hla

theorem lineInv_no_hash {name L : BStr} (hn : goodTok name) (hI : lineInv name L) :
    hasChar '#' L = false := by
  obtain ⟨toks, rfl, htg, _⟩ := hI
  by_contra hne
  have htrue : hasChar '#' (name ++ spacedToks toks) = true := by
    revert hne
    cases hasChar '#' (name ++ spacedToks toks) <;> simp
  unfold hasChar at htrue
  rw [List.any_eq_true] at htrue
  obtain ⟨d, hd, hdc⟩ := htrue
  have hd2 : d = '#' := of_decide_eq_true hdc
  subst hd2
  rcases List.mem_append.mp hd with h | h
  · exact absurd rfl (hn.2 '#' h).2
  · unfold spacedToks at h
    obtain ⟨chunk, hc, hmem⟩ := List.mem_join.mp h
    obtain ⟨t, ht, rfl⟩ := List.mem_map.mp hc
    rcases List.mem_cons.mp hmem with h2 | h2
    · exact absurd h2 (by decide)
    · exact absurd rfl ((htg t ht).2 '#' h2).2

/-- C5 (amended): for every well-formed active version, every module
whose declared name is a nonempty token-safe word other than
`-framework`, and whose clause strings are token-safe (`GoodInfo`),
re-parsing a synthesized module line with `parse_setup_line` succeeds —
it returns a record, never the blank-line result nor an error — and the
record's extension name is the module's declared name, regardless of
which conditional clauses fired. -/
theorem C5_round_trip {name pv tt L : BStr} {vp : Int × Int} {info : ModuleInfo}
    {rmatch : BStr → BStr → Bool}
    (hv : pyPairB pv = some vp) (hn : goodRaw name) (hG : GoodInfo info)
    (hok : derive_module_line name info pv tt rmatch = .ok L) :
    ∃ r : SetupLine, parse_setup_line L pv = .ok (some r) ∧ r.extension = name := by
  obtain ⟨toks, hL, htg, hlast⟩ := derive_module_line_shape hG hok
  have hhash : hasChar '#' L = false :=
    lineInv_no_hash hn.1 ⟨toks, hL, htg, hlast⟩
  have hwords : wordsOf L = name :: toks := by
    rw [hL]
    exact wordsOf_name_spaced hn.1 htg
  have hne : ¬ L = [] := by
    rw [hL]
    intro h
    exact hn.1.1 (List.append_eq_nil.mp h).1
  have hlast2 : lastNotFm (name :: toks) := by
    cases toks with
    | nil => simpa [lastNotFm] using hn.2
    | cons t ts =>
      unfold lastNotFm at hlast ⊢
      rwa [List.getLast?_cons_cons]
  obtain ⟨acc2, hacc⟩ := parseWords_ok hv (name :: toks) ⟨[], [], []⟩ hlast2
  refine ⟨{ extension := name, line := L, posix_obj_paths := acc2.objs,
            links := acc2.links, frameworks := acc2.frameworks,
            variant := str "default" }, ?_, rfl⟩
  unfold parse_setup_line
  simp only [hhash, Bool.false_eq_true, if_false, hne, hwords, hacc, Except.map]

theorem splitCh_no (c : Char) {l : BStr} (h : ∀ d ∈ l, d ≠ c) : splitCh c l = [l] := by
  induction l with
  | nil => rfl
  | cons d rest ih =>
    unfold splitCh
    rw [if_neg (h d (by simp))]
    rw [ih (fun x hx => h x (by simp [hx]))]

theorem splitCh_cons_sep (c : Char) {a : BStr} (ha : ∀ d ∈ a, d ≠ c) (b : BStr) :
    splitCh c (a ++ c :: b) = a :: splitCh c b := by
  induction a with
  | nil => simp [splitCh]
  | cons d a2 ih =>
    have hd : d ≠ c := ha d (by simp)
    have ih2 := ih (fun x hx => ha x (by simp [hx]))
    simp only [List.cons_append, splitCh, hd, if_false, List.append_eq, ih2]

theorem lastDotIdx_append_dotc {s : BStr} (hs : ∀ d ∈ s, d ≠ '.') :
    lastDotIdx (s ++ str ".c") = some s.length := by
  induction s with
  | nil => decide
  | cons d s2 ih =>
    have ih2 := ih (fun x hx => hs x (by simp [hx]))
    show lastDotIdx (d :: (s2 ++ str ".c")) = some (s2.length + 1)
    unfold lastDotIdx
    rw [ih2]

theorem withSuffixO_dotc {s : BStr} (hs0 : s ≠ []) (hsd : ∀ c ∈ s, c ≠ '.') :
    withSuffixO (s ++ str ".c") = s ++ str ".o" := by
  unfold withSuffixO
  rw [lastDotIdx_append_dotc hsd]
  have hlen : 0 < s.length := by
    cases s with
    | nil => exact absurd rfl hs0
    | cons a l => simp
  dsimp only []
  rw [if_pos hlen]
  congr 1
  exact List.take_left s (str ".c")

theorem basenameB_two {d b : BStr} (hd : ∀ c ∈ d, c ≠ '/') (hb : ∀ c ∈ b, c ≠ '/') :
    basenameB (d ++ '/' :: b) = b := by
  unfold basenameB
  rw [splitCh_cons_sep '/' hd b, splitCh_no '/' hb]
  rfl

theorem dirnameB_two {d b : BStr} (hd : ∀ c ∈ d, c ≠ '/') (hb : ∀ c ∈ b, c ≠ '/') :
    dirnameB (d ++ '/' :: b) = d := by
  unfold dirnameB
  rw [splitCh_cons_sep '/' hd b, splitCh_no '/' hb]
  show joinCh '/' [d] = d
  simp [joinCh, List.intercalate]

theorem endsDotC_suffix (x : BStr) : endsDotC (x ++ str ".c") = true := by
  unfold endsDotC
  rw [List.reverse_append, show (str ".c").reverse = 'c' :: '.' :: [] from rfl]
  simp

theorem hasChar_iff {c : Char} {l : BStr} : hasChar c l = true ↔ c ∈ l := by
  unfold hasChar
  rw [List.any_eq_true]
  constructor
  · rintro ⟨d, hd, hdc⟩
    cases of_decide_eq_true hdc
    exact hd
  · intro h
    exact ⟨c, h, by simp⟩

/-- C3: for every `.c`-suffixed token of the shape `dir/stem.c` made of
token-safe bytes, the Manifest Line Parser produces the object path
`Modules/stem.o` — the directory component dropped — whenever the
active version's (major, minor) pair is below (3, 11), and the path
`Modules/dir/stem.o` — the parent directory preserved — whenever it is
at least (3, 11); in particular `foo/bar.c` yields `Modules/bar.o`
under version 3.10 and `Modules/foo/bar.o` under version 3.11. -/
theorem C3_object_path {pv : BStr} {mj mi : Int} (d s : BStr)
    (hv : pyPairB pv = some (mj, mi))
    (hd0 : d ≠ []) (hdc : ∀ c ∈ d, isSpaceB c = false ∧ c ≠ '#' ∧ c ≠ '/')
    (hs0 : s ≠ []) (hsc : ∀ c ∈ s, isSpaceB c = false ∧ c ≠ '#' ∧ c ≠ '/' ∧ c ≠ '.') :
    (tupleGE (mj, mi) (3, 11) = false →
      parse_setup_line (str "m " ++ (d ++ str "/" ++ s ++ str ".c")) pv =
        .ok (some { extension := str "m",
                    line := str "m " ++ (d ++ str "/" ++ s ++ str ".c"),
                    posix_obj_paths := [str "Modules/" ++ (s ++ str ".o")],
                    links := [], frameworks := [], variant := str "default" })) ∧
    (tupleGE (mj, mi) (3, 11) = true →
      parse_setup_line (str "m " ++ (d ++ str "/" ++ s ++ str ".c")) pv =
        .ok (some { extension := str "m",
                    line := str "m " ++ (d ++ str "/" ++ s ++ str ".c"),
                    posix_obj_paths := [str "Modules/" ++ d ++ str "/" ++ (s ++ str ".o")],
                    links := [], frameworks := [], variant := str "default" })) := by
  have hww : d ++ str "/" ++ s ++ str ".c" = d ++ '/' :: (s ++ str ".c") := by
    rw [show str "/" = ['/'] from rfl]
    simp [List.append_assoc]
  have hwgood : goodTok (d ++ str "/" ++ s ++ str ".c") := by
    rw [hww]
    refine ⟨by simp [hd0], ?_⟩
    intro c hc
    rcases List.mem_append.mp hc with h | h
    · exact ⟨(hdc c h).1, (hdc c h).2.1⟩
    · rcases List.mem_cons.mp h with rfl | h2
      · exact ⟨by decide, by decide⟩
      · rcases List.mem_append.mp h2 with h3 | h3
        · exact ⟨(hsc c h3).1, (hsc c h3).2.1⟩
        · rcases List.mem_cons.mp h3 with rfl | h4
          · exact ⟨by decide, by decide⟩
          · rcases List.mem_singleton.mp (by simpa using h4) with rfl
            exact ⟨by decide, by decide⟩
  have hwfm : d ++ str "/" ++ s ++ str ".c" ≠ str "-framework" := by
    intro h
    have hsl : '/' ∈ d ++ str "/" ++ s ++ str ".c" := by
      rw [hww]
      exact List.mem_append_right d (by simp)
    rw [h] at hsl
    exact absurd hsl (by decide)
  have hline : str "m " ++ (d ++ str "/" ++ s ++ str ".c") =
      str "m" ++ spacedToks [d ++ str "/" ++ s ++ str ".c"] := by
    rw [spacedToks_one, show str "m " = str "m" ++ [' '] from rfl]
    simp
  have hhash : hasChar '#' (str "m " ++ (d ++ str "/" ++ s ++ str ".c")) = false := by
    refine lineInv_no_hash (by decide) ⟨[d ++ str "/" ++ s ++ str ".c"], hline, ?_,
      lastNotFm_single hwfm⟩
    intro t ht
    rcases List.mem_singleton.mp ht with rfl
    exact hwgood
  have hwords : wordsOf (str "m " ++ (d ++ str "/" ++ s ++ str ".c")) =
      [str "m", d ++ str "/" ++ s ++ str ".c"] := by
    rw [hline]
    refine wordsOf_name_spaced (by decide) ?_
    intro t ht
    rcases List.mem_singleton.mp ht with rfl
    exact hwgood
  have hne : ¬ str "m " ++ (d ++ str "/" ++ s ++ str ".c") = [] := by
    rw [show str "m " = 'm' :: [' '] from rfl]
    simp
  have hm := meets_min_eq hv (show pyPairB (str "3.11") = some (3, 11) from by decide)
  have hends : endsDotC (d ++ str "/" ++ s ++ str ".c") = true := endsDotC_suffix _
  have hslash : hasChar '/' (d ++ str "/" ++ s ++ str ".c") = true := by
    rw [hasChar_iff, hww]
    exact List.mem_append_right d (by simp)
  have hbase : basenameB (d ++ str "/" ++ s ++ str ".c") = s ++ str ".c" := by
    rw [hww]
    refine basenameB_two (fun c hc => (hdc c hc).2.2) ?_
    intro c hc
    rcases List.mem_append.mp hc with h | h
    · exact (hsc c h).2.2.1
    · rcases List.mem_cons.mp h with rfl | h2
      · decide
      · rcases List.mem_singleton.mp (by simpa using h2) with rfl
        decide
  have hdir : dirnameB (d ++ str "/" ++ s ++ str ".c") = d := by
    rw [hww]
    refine dirnameB_two (fun c hc => (hdc c hc).2.2) ?_
    intro c hc
    rcases List.mem_append.mp hc with h | h
    · exact (hsc c h).2.2.1
    · rcases List.mem_cons.mp h with rfl | h2
      · decide
      · rcases List.mem_singleton.mp (by simpa using h2) with rfl
        decide
  have hsuf : withSuffixO (s ++ str ".c") = s ++ str ".o" :=
    withSuffixO_dotc hs0 (fun c hc => (hsc c hc).2.2.2)
  constructor <;> intro hb
  · unfold parse_setup_line
    simp only [hhash, Bool.false_eq_true, if_false, hne, hwords]
    rw [parseWords_cons]
    rw [if_neg (show ¬ endsDotC (str "m") = true from by decide)]
    rw [if_neg (show ¬ leadsWith (str "-l") (str "m") = true from by decide)]
    rw [if_neg (show ¬ leadsWith (str "-hidden-l") (str "m") = true from by decide)]
    rw [if_neg (show ¬ str "m" = str "-framework" from by decide)]
    rw [parseWords_cons, if_pos hends, hm]
    dsimp only []
    rw [hb]
    unfold setupObjPath
    rw [if_neg (show ¬ (false && hasChar '/' (d ++ str "/" ++ s ++ str ".c")) = true
      from by simp)]
    rw [hbase, hsuf]
    simp [parseWords, setAdd, Except.map]
  · unfold parse_setup_line
    simp only [hhash, Bool.false_eq_true, if_false, hne, hwords]
    rw [parseWords_cons]
    rw [if_neg (show ¬ endsDotC (str "m") = true from by decide)]
    rw [if_neg (show ¬ leadsWith (str "-l") (str "m") = true from by decide)]
    rw [if_neg (show ¬ leadsWith (str "-hidden-l") (str "m") = true from by decide)]
    rw [if_neg (show ¬ str "m" = str "-framework" from by decide)]
    rw [parseWords_cons, if_pos hends, hm]
    dsimp only []
    rw [hb, hslash]
    unfold setupObjPath
    rw [if_pos (show (true && true) = true from rfl)]
    rw [hbase, hdir, hsuf]
    simp [parseWords, setAdd, Except.map]

/-- Witness for C3 at the spec's own boundary instance: `foo/bar.c`
yields `Modules/bar.o` under version 3.10 and `Modules/foo/bar.o`
under version 3.11. -/
theorem C3_object_path_witness :
    (pyPairB (str "3.10") = some (3, 10) ∧ tupleGE (3, 10) (3, 11) = false) ∧
    (pyPairB (str "3.11") = some (3, 11) ∧ tupleGE (3, 11) (3, 11) = true) ∧
    parse_setup_line (str "m " ++ (str "foo" ++ str "/" ++ str "bar" ++ str ".c"))
      (str "3.10") =
      .ok (some { extension := str "m",
                  line := str "m " ++ (str "foo" ++ str "/" ++ str "bar" ++ str ".c"),
                  posix_obj_paths := [str "Modules/" ++ (str "bar" ++ str ".o")],
                  links := [], frameworks := [], variant := str "default" }) ∧
    parse_setup_line (str "m " ++ (str "foo" ++ str "/" ++ str "bar" ++ str ".c"))
      (str "3.11") =
      .ok (some { extension := str "m",
                  line := str "m " ++ (str "foo" ++ str "/" ++ str "bar" ++ str ".c"),
                  posix_obj_paths := [str "Modules/" ++ str "foo" ++ str "/" ++
                    (str "bar" ++ str ".o")],
                  links := [], frameworks := [], variant := str "default" }) :=
  ⟨⟨by decide, by decide⟩, ⟨by decide, by decide⟩,
    (C3_object_path (str "foo") (str "bar")
      (show pyPairB (str "3.10") = some (3, 10) from by decide)
      (by decide) (by decide) (by decide) (by decide)).1 (by decide),
    (C3_object_path (str "foo") (str "bar")
      (show pyPairB (str "3.11") = some (3, 11) from by decide)
      (by decide) (by decide) (by decide) (by decide)).2 (by decide)⟩

theorem cfAppend_lookup_self (m : Cflags) (k : BStr) (v : BStr) :
    cfLookup (cfAppend m k v) k = cfLookup m k ++ [v] := by
  induction m with
  | nil => simp [cfAppend, cfLookup]
  | cons kv rest ih =>
    obtain ⟨k0, vs⟩ := kv
    unfold cfAppend
    by_cases hk : k0 = k
    · rw [if_pos hk]
      unfold cfLookup
      rw [if_pos hk, if_pos hk]
    · rw [if_neg hk]
      unfold cfLookup
      rw [if_neg hk, if_neg hk]
      exact ih

theorem cfAppend_lookup_other (m : Cflags) (k v : BStr) {k2 : BStr} (hne : k2 ≠ k) :
    cfLookup (cfAppend m k v) k2 = cfLookup m k2 := by
  induction m with
  | nil => simp [cfAppend, cfLookup, Ne.symm hne]
  | cons kv rest ih =>
    obtain ⟨k0, vs⟩ := kv
    unfold cfAppend
    by_cases hk : k0 = k
    · rw [if_pos hk]
      unfold cfLookup
      rw [if_neg (by rw [hk]; exact Ne.symm hne), if_neg (by rw [hk]; exact Ne.symm hne)]
    · rw [if_neg hk]
      unfold cfLookup
      by_cases hk2 : k0 = k2
      · rw [if_pos hk2, if_pos hk2]
      · rw [if_neg hk2, if_neg hk2]
        exact ih

theorem cfFoldObjs_lookup (objs : List BStr) (hnd : objs.Nodup) (m : BStr) (cf : Cflags) :
    ∀ k, cfLookup (objs.foldl (fun cf1 obj => cfAppend cf1 obj m) cf) k =
      if k ∈ objs then cfLookup cf k ++ [m] else cfLookup cf k := by
  induction objs generalizing cf with
  | nil => simp
  | cons o os ih =>
    intro k
    rw [List.foldl_cons, ih (List.Nodup.of_cons hnd)]
    by_cases hk : k ∈ os
    · rw [if_pos hk, if_pos (by simp [hk])]
      have hko : k ≠ o := by
        intro h
        subst h
        exact (List.nodup_cons.mp hnd).1 hk
      rw [cfAppend_lookup_other cf o m hko]
    · rw [if_neg hk]
      by_cases hko : k = o
      · subst hko
        rw [if_pos (by simp), cfAppend_lookup_self]
      · rw [if_neg (by simp [hko, hk]), cfAppend_lookup_other cf o m hko]

theorem cfMatchesFold_lookup (ms : List BStr) (objs : List BStr) (hnd : objs.Nodup)
    (cf : Cflags) :
    ∀ k, cfLookup (ms.foldl (fun cf0 m =>
        objs.foldl (fun cf1 obj => cfAppend cf1 obj m) cf0) cf) k =
      if k ∈ objs then cfLookup cf k ++ ms else cfLookup cf k := by
  induction ms generalizing cf with
  | nil =>
    intro k
    by_cases hk : k ∈ objs <;> simp [hk]
  | cons m ms2 ih =>
    intro k
    rw [List.foldl_cons, ih _ ]
    rw [cfFoldObjs_lookup objs hnd m cf k]
    by_cases hk : k ∈ objs
    · rw [if_pos hk, if_pos hk, if_pos hk]
      simp
    · rw [if_neg hk, if_neg hk, if_neg hk]

theorem setAdd_nodup {l : List BStr} {x : BStr} (h : l.Nodup) : (setAdd l x).Nodup := by
  unfold setAdd
  by_cases hx : x ∈ l
  · rw [if_pos hx]
    exact h
  · rw [if_neg hx]
    simp [List.nodup_append, h, hx]

theorem parseWords_objs_nodup {pv : BStr} :
    ∀ (toks : List BStr) (acc acc2 : ParseAcc),
      parseWords pv toks acc = .ok acc2 → acc.objs.Nodup → acc2.objs.Nodup := by
  intro toks
  induction toks with
  | nil =>
    intro acc acc2 h hnd
    cases h
    exact hnd
  | cons w rest ih =>
    intro acc acc2 h hnd
    rw [parseWords_cons] at h
    by_cases h1 : endsDotC w = true
    · rw [if_pos h1] at h
      cases hm : meets_python_minimum_version pv (str "3.11") with
      | none =>
        rw [hm] at h
        simp at h
      | some b =>
        rw [hm] at h
        exact ih _ _ h (setAdd_nodup hnd)
    · rw [if_neg h1] at h
      by_cases h2 : leadsWith (str "-l") w = true
      · rw [if_pos h2] at h
        exact ih _ _ h hnd
      · rw [if_neg h2] at h
        by_cases h3 : leadsWith (str "-hidden-l") w = true
        · rw [if_pos h3] at h
          exact ih _ _ h hnd
        · rw [if_neg h3] at h
          by_cases h4 : w = str "-framework"
          · rw [if_pos h4] at h
            cases rest with
            | nil => simp at h
            | cons n ns => exact ih _ _ h hnd
          · rw [if_neg h4] at h
            exact ih _ _ h hnd

theorem parse_setup_line_objs_nodup {line pv : BStr} {p : SetupLine}
    (h : parse_setup_line line pv = .ok (some p)) : p.posix_obj_paths.Nodup := by
  unfold parse_setup_line at h
  dsimp only [] at h
  by_cases hh : hasChar '#' line = true
  · rw [if_pos hh] at h
    by_cases h2 : rstripB (line.takeWhile (fun c => c ≠ '#')) = []
    · rw [if_pos h2] at h
      simp at h
    · rw [if_neg h2] at h
      cases hw : wordsOf (rstripB (line.takeWhile (fun c => c ≠ '#'))) with
      | nil =>
        rw [hw] at h
        simp at h
      | cons w ws =>
        rw [hw] at h
        dsimp only [] at h
        cases hpw : parseWords pv (w :: ws) ⟨[], [], []⟩ with
        | error e =>
          rw [hpw] at h
          simp [Except.map] at h
        | ok acc =>
          rw [hpw] at h
          simp only [Except.map, Except.ok.injEq, Option.some.injEq] at h
          rw [← h]
          exact parseWords_objs_nodup _ _ _ hpw (by simp)
  · rw [if_neg hh] at h
    by_cases h2 : line = []
    · rw [if_pos h2] at h
      simp at h
    · rw [if_neg h2] at h
      cases hw : wordsOf line with
      | nil =>
        rw [hw] at h
        simp at h
      | cons w ws =>
        rw [hw] at h
        dsimp only [] at h
        cases hpw : parseWords pv (w :: ws) ⟨[], [], []⟩ with
        | error e =>
          rw [hpw] at h
          simp [Except.map] at h
        | ok acc =>
          rw [hpw] at h
          simp only [Except.map, Except.ok.injEq, Option.some.injEq] at h
          rw [← h]
          exact parseWords_objs_nodup _ _ _ hpw (by simp)

/-- C4: for every synthesized module line that re-parses to a record
`p`, the define-hoisting post-processor `hoist_line` strips every
`RE_DEFINE` match (so every compiler-define token of shape
`-D<name>=<value>` disappears from the line), records the matches, in
order of first appearance, once per object path of the module, and
either emits a line with no remaining '=' or fails with the fatal
internal-consistency error exactly when an '=' survives the strip;
the override lines are keyed and sorted by object path (`makeLines`
maps over `sortChars (cfKeys cf)`, which is sorted). -/
theorem C4_define_hoisting (line pv : BStr) (cf : Cflags) (p : SetupLine)
    (hp : parse_setup_line line pv = .ok (some p)) :
    (hasChar '=' (subDefine line) = true →
      hoist_line line pv cf = .error
        (str "= appears in EXTRA_MODULES line; will confuse makesetup: " ++
          subDefine line)) ∧
    (hasChar '=' (subDefine line) = false →
      hoist_line line pv cf = .ok (subDefine line,
        (finditerDefine p.line).foldl (fun cf0 m =>
          (sortChars p.posix_obj_paths).foldl
            (fun cf1 obj => cfAppend cf1 obj m) cf0) cf)) ∧
    (∀ out cf2, hoist_line line pv cf = .ok (out, cf2) →
      hasChar '=' out = false ∧
      ∀ k, cfLookup cf2 k =
        if k ∈ p.posix_obj_paths then cfLookup cf k ++ finditerDefine p.line
        else cfLookup cf k) ∧
    List.Pairwise (fun a b => leChars a b = true) (sortChars (cfKeys cf)) := by
  have hnd : p.posix_obj_paths.Nodup := parse_setup_line_objs_nodup hp
  have hrun : hoist_line line pv cf =
      (if hasChar '=' (subDefine line) = true then
        .error (str "= appears in EXTRA_MODULES line; will confuse makesetup: " ++
          subDefine line)
      else .ok (subDefine line,
        (finditerDefine p.line).foldl (fun cf0 m =>
          (sortChars p.posix_obj_paths).foldl
            (fun cf1 obj => cfAppend cf1 obj m) cf0) cf)) := by
    unfold hoist_line
    rw [hp]
    simp only [Bind.bind, Except.bind]
  refine ⟨?_, ?_, ?_, sortChars_sorted _⟩
  · intro he
    rw [hrun, if_pos he]
  · intro he
    rw [hrun, if_neg (by rw [he]; exact Bool.false_ne_true)]
  · intro out cf2 hok
    rw [hrun] at hok
    by_cases he : hasChar '=' (subDefine line) = true
    · rw [if_pos he] at hok
      simp at hok
    · rw [if_neg he] at hok
      simp only [Except.ok.injEq, Prod.mk.injEq] at hok
      obtain ⟨hout, hcf⟩ := hok
      constructor
      · rw [← hout]
        revert he
        cases hasChar '=' (subDefine line) <;> simp
      · intro k
        rw [← hcf]
        rw [cfMatchesFold_lookup (finditerDefine p.line) (sortChars p.posix_obj_paths)
          (sortChars_nodup hnd) cf k]
        by_cases hk : k ∈ p.posix_obj_paths
        · rw [if_pos hk, if_pos (mem_sortChars.mpr hk)]
        · rw [if_neg hk, if_neg (fun hx => hk (mem_sortChars.mp hx))]

/-- Witness for C4 at the spec's own instance: a module line declaring
`FOO=1` yields an emitted line with no '=' and an override entry
`-DFOO=1` keyed by the module's object file. -/
theorem C4_define_hoisting_witness :
    parse_setup_line (str "foo foo.c -DFOO=1") (str "3.11") =
      .ok (some { extension := str "foo", line := str "foo foo.c -DFOO=1",
                  posix_obj_paths := [str "Modules/foo.o"], links := [],
                  frameworks := [], variant := str "default" }) ∧
    hoist_line (str "foo foo.c -DFOO=1") (str "3.11") [] =
      .ok (str "foo foo.c ", [(str "Modules/foo.o", [str "-DFOO=1"])]) := by
  refine ⟨by decide, ?_⟩
  have h := (C4_define_hoisting (str "foo foo.c -DFOO=1") (str "3.11") []
    { extension := str "foo", line := str "foo foo.c -DFOO=1",
      posix_obj_paths := [str "Modules/foo.o"], links := [],
      frameworks := [], variant := str "default" } (by decide)).2.1 (by decide)
  rw [h]
  decide

/-- C2 (code behaviour at the failing input): a `defines-conditional`
entry declaring only `maximum-python-version = "3.10"` still has its
define appended at version 3.12, although 3.12 exceeds the declared
maximum — because cpython.py line 392 evaluates the maximum bound
against the entry's `minimum-python-version` field (default "100.0"),
so the declared maximum is never consulted. -/
theorem C2_conditional_define_version_bug :
    derive_module_line (str "foo")
      { sources := some [str "foo.c"],
        defines_conditional :=
          [⟨str "BAR", [], none, some (str "3.10")⟩] }
      (str "3.12") (str "x86_64-unknown-linux-gnu") (fun _ _ => false) =
      .ok (str "foo foo.c -DBAR") ∧
    meets_python_maximum_version (str "3.12") (str "3.10") = some false :=
  ⟨by decide, by decide⟩

/-- C7 counterexample: a module declaring no version bounds at all is
nevertheless ignored at active version "0.9", because the unspecified
minimum bound defaults to the sentinel "1.0" rather than behaving as
negative infinity; symmetrically the unspecified maximum defaults to
"100.0" and is not satisfied at version "100.1". -/
theorem C7_counterexample :
    collectMeta [(str "foo", ({} : ModuleInfo))] (str "0.9") (str "t") (fun _ _ => false) =
      .ok { ignored := [str "foo"], disabled := [], setup_enabled_wanted := [],
            config_c_only_wanted := [] } ∧
    meets_python_minimum_version (str "0.9") (str "1.0") = some false ∧
    meets_python_maximum_version (str "100.1") (str "100.0") = some false :=
  ⟨by decide, by decide, by decide⟩

/-- C7 (amended): the version predicates parse the first two
dot-separated components of each string as integers and compare the
(major, minor) pairs under ordinary lexicographic tuple comparison,
ignoring any trailing components; an unspecified minimum bound defaults
to "1.0" and an unspecified maximum bound to "100.0", so each is
satisfied exactly by the versions whose pair is at least (1, 0)
resp. at most (100, 0) — not by every version. -/
theorem C7_version_predicates :
    (∀ (g w : BStr) (gp wp : Int × Int), pyPairB g = some gp → pyPairB w = some wp →
      meets_python_minimum_version g w = some (tupleGE gp wp) ∧
      meets_python_maximum_version g w = some (tupleLE gp wp)) ∧
    (∀ (a b c : BStr) (i j : Int), (∀ d ∈ a, d ≠ '.') → (∀ d ∈ b, d ≠ '.') →
      bint a = some i → bint b = some j →
      pyPairB (a ++ '.' :: b) = some (i, j) ∧
      pyPairB (a ++ ('.' :: (b ++ ('.' :: c)))) = some (i, j)) ∧
    (∀ (v : BStr) (vp : Int × Int), pyPairB v = some vp →
      meets_python_minimum_version v (str "1.0") = some (tupleGE vp (1, 0)) ∧
      meets_python_maximum_version v (str "100.0") = some (tupleLE vp (100, 0))) := by
  refine ⟨?_, ?_, ?_⟩
  · intro g w gp wp hg hw
    exact ⟨meets_min_eq hg hw, meets_max_eq hg hw⟩
  · intro a b c i j ha hb hia hjb
    constructor
    · unfold pyPairB
      rw [splitCh_cons_sep '.' ha b, splitCh_no '.' hb]
      dsimp only []
      rw [hia, hjb]
    · unfold pyPairB
      rw [splitCh_cons_sep '.' ha (b ++ ('.' :: c)), splitCh_cons_sep '.' hb c]
      dsimp only []
      rw [hia, hjb]
  · intro v vp hv
    exact ⟨meets_min_eq hv (by decide), meets_max_eq hv (by decide)⟩

/-- Witness for C7 (amended) at concrete versions. -/
theorem C7_version_predicates_witness :
    (pyPairB (str "3.11") = some (3, 11) ∧ pyPairB (str "3.10") = some (3, 10) ∧
      meets_python_minimum_version (str "3.11") (str "3.10") = some true) ∧
    pyPairB (str "3" ++ ('.' :: (str "11" ++ ('.' :: str "0rc2")))) = some (3, 11) ∧
    meets_python_minimum_version (str "3.9") (str "1.0") = some true := by
  refine ⟨⟨by decide, by decide, ?_⟩, ?_, ?_⟩
  · have h := (C7_version_predicates.1 (str "3.11") (str "3.10") (3, 11) (3, 10)
      (by decide) (by decide)).1
    rw [h]
    decide
  · exact (C7_version_predicates.2.1 (str "3") (str "11") (str "0rc2") 3 11
      (by decide) (by decide) (by decide) (by decide)).2
  · have h := (C7_version_predicates.2.2 (str "3.9") (3, 9) (by decide)).1
    rw [h]
    decide

/-- C5 counterexample: a schema-valid ModuleSpec with an empty framework
name synthesizes a line whose final word is a bare `-framework`;
re-parsing that line raises `IndexError` instead of returning a record,
so the round trip does not hold for every ModuleSpec as stated. -/
theorem C5_counterexample :
    derive_module_line (str "foo")
      { sources := some [str "foo.c"], frameworks := [[]] }
      (str "3.11") (str "aarch64-apple-darwin") (fun _ _ => false) =
      .ok (str "foo foo.c -framework ") ∧
    parse_setup_line (str "foo foo.c -framework ") (str "3.11") =
      .error (str "IndexError: list index out of range") :=
  ⟨by decide, by decide⟩

/-- Witness for C5 (amended) at a concrete well-behaved module. -/
theorem C5_round_trip_witness :
    (pyPairB (str "3.11") = some (3, 11) ∧ goodRaw (str "foo") ∧
      GoodInfo { sources := some [str "foo.c"], defines := [str "X"] } ∧
      derive_module_line (str "foo")
        { sources := some [str "foo.c"], defines := [str "X"] }
        (str "3.11") (str "t") (fun _ _ => false) = .ok (str "foo foo.c -DX")) ∧
    (∃ r : SetupLine, parse_setup_line (str "foo foo.c -DX") (str "3.11") =
      .ok (some r) ∧ r.extension = str "foo") :=
  ⟨⟨by decide, by decide, by decide, by decide⟩,
    C5_round_trip (show pyPairB (str "3.11") = some (3, 11) from by decide)
      (by decide)
      (show GoodInfo { sources := some [str "foo.c"], defines := [str "X"] } from by decide)
      (show derive_module_line (str "foo")
        { sources := some [str "foo.c"], defines := [str "X"] }
        (str "3.11") (str "t") (fun _ _ => false) = .ok (str "foo foo.c -DX")
        from by decide)⟩

/-- C1 counterexample: an input violating both the undeclared-modules
check (the Setup file knows `bar`, the YAML does not) and the
setup-enabled presence check (`foo` is setup-enabled in YAML but absent
from Setup) fails with a message that enumerates only the first check's
name `bar`; the second non-empty violation set `[foo]` is neither
evaluated into the message nor reported — the checks short-circuit. -/
theorem C1_counterexample :
    derive_setup_local [str "bar bar.c\n"] [] (str "3.11") (str "t")
      [(str "foo", c1Info)] (fun p s => leadsWith p s) =
      .error (str "missing extension modules from YAML: bar") ∧
    (collectMeta [(str "foo", c1Info)] (str "3.11") (str "t")
      (fun p s => leadsWith p s)).map
      (fun meta => setDiff meta.setup_enabled_wanted
        (parseSetupDist [str "bar bar.c\n"]).setup_enabled_actual) =
      .ok [str "foo"] ∧
    containsSub (str "foo") (str "missing extension modules from YAML: bar") = false :=
  ⟨by decide, by decide, by decide⟩

/-- C1 (amended): the five reconciliation raises are evaluated in a
fixed order and the run fails on the FIRST non-empty violation set,
with a fatal message enumerating exactly that set's names in sorted
order; later checks are not evaluated into the message, so violations
are not aggregated across checks (the config-c-only symmetric
difference is reported as two separate one-sided checks). -/
theorem C1_first_violation_reported (setup_lines : List BStr) (config_c_in : BStr)
    (pv tt : BStr) (mods : List (BStr × ModuleInfo)) (rmatch : BStr → BStr → Bool)
    (meta : CollectResult) (hc : collectMeta mods pv tt rmatch = .ok meta) :
    let sd := parseSetupDist setup_lines
    let cfg := parse_config_c config_c_in
    let dist := (sortChars (cfg.map (fun kv => kv.1))).foldl setAdd sd.dist_modules
    let declared := mods.map (fun m => m.1)
    let m1 := setDiff dist declared
    let m2 := setDiff sd.setup_enabled_actual meta.setup_enabled_wanted
    let m3 := setDiff meta.setup_enabled_wanted sd.setup_enabled_actual
    let m4 := setDiff (cfg.map (fun kv => kv.1)) meta.config_c_only_wanted
    let m5 := setDiff meta.config_c_only_wanted (cfg.map (fun kv => kv.1))
    (m1 ≠ [] → derive_setup_local setup_lines config_c_in pv tt mods rmatch =
      .error (str "missing extension modules from YAML: " ++ joinNames m1)) ∧
    (m1 = [] → m2 ≠ [] →
      derive_setup_local setup_lines config_c_in pv tt mods rmatch =
        .error (str "Setup enabled extensions missing YAML setup-enabled annotation: "
          ++ joinNames m2)) ∧
    (m1 = [] → m2 = [] → m3 ≠ [] →
      derive_setup_local setup_lines config_c_in pv tt mods rmatch =
        .error (str "YAML setup-enabled extensions not present in Setup: "
          ++ joinNames m3)) ∧
    (m1 = [] → m2 = [] → m3 = [] → m4 ≠ [] →
      derive_setup_local setup_lines config_c_in pv tt mods rmatch =
        .error (str "config.c.in extensions missing YAML config-c-only annotation: "
          ++ joinNames m4)) ∧
    (m1 = [] → m2 = [] → m3 = [] → m4 = [] → m5 ≠ [] →
      derive_setup_local setup_lines config_c_in pv tt mods rmatch =
        .error (str "YAML config-c-only extensions not present in config.c.in: "
          ++ joinNames m5)) := by
  intro sd cfg dist declared m1 m2 m3 m4 m5
  have hd : ∀ msg : BStr,
      validateMeta dist sd.setup_enabled_actual (cfg.map (fun kv => kv.1))
        declared meta.setup_enabled_wanted meta.config_c_only_wanted = .error msg →
      derive_setup_local setup_lines config_c_in pv tt mods rmatch = .error msg := by
    intro msg hval
    unfold derive_setup_local
    rw [hc]
    simp only [Bind.bind, Except.bind]
    rw [hval]
  refine ⟨?_, ?_, ?_, ?_, ?_⟩
  · intro h1
    refine hd _ ?_
    unfold validateMeta
    rw [if_pos h1]
  · intro h1 h2
    refine hd _ ?_
    unfold validateMeta
    rw [if_neg (by simp only [ne_eq, not_not]; exact h1), if_pos h2]
  · intro h1 h2 h3
    refine hd _ ?_
    unfold validateMeta
    rw [if_neg (by simp only [ne_eq, not_not]; exact h1), if_neg (by simp only [ne_eq, not_not]; exact h2), if_pos h3]
  · intro h1 h2 h3 h4
    refine hd _ ?_
    unfold validateMeta
    rw [if_neg (by simp only [ne_eq, not_not]; exact h1), if_neg (by simp only [ne_eq, not_not]; exact h2), if_neg (by simp only [ne_eq, not_not]; exact h3), if_pos h4]
  · intro h1 h2 h3 h4 h5
    refine hd _ ?_
    unfold validateMeta
    rw [if_neg (by simp only [ne_eq, not_not]; exact h1), if_neg (by simp only [ne_eq, not_not]; exact h2), if_neg (by simp only [ne_eq, not_not]; exact h3),
      if_neg (by simp only [ne_eq, not_not]; exact h4), if_pos h5]

/-- Witness for C1 (amended) at the counterexample input: the first
check's violation set is `[bar]` and the run fails with exactly that
name in the message. -/
theorem C1_first_violation_reported_witness :
    (collectMeta [(str "foo", c1Info)] (str "3.11") (str "t")
        (fun p s => leadsWith p s) =
      .ok { ignored := [], disabled := [], setup_enabled_wanted := [str "foo"],
            config_c_only_wanted := [] }) ∧
    derive_setup_local [str "bar bar.c\n"] [] (str "3.11") (str "t")
      [(str "foo", c1Info)] (fun p s => leadsWith p s) =
      .error (str "missing extension modules from YAML: " ++
        joinNames (setDiff ((sortChars ((parse_config_c []).map (fun kv => kv.1))).foldl
          setAdd (parseSetupDist [str "bar bar.c\n"]).dist_modules)
          ([(str "foo", c1Info)].map (fun m => m.1)))) := by
  refine ⟨by decide, ?_⟩
  exact (C1_first_violation_reported [str "bar bar.c\n"] [] (str "3.11") (str "t")
    [(str "foo", c1Info)] (fun p s => leadsWith p s)
    { ignored := [], disabled := [], setup_enabled_wanted := [str "foo"],
      config_c_only_wanted := [] } (by decide)).1 (by decide)

theorem joinCh_cons (c : Char) (x : BStr) (xs : List BStr) (h : xs ≠ []) :
    joinCh c (x :: xs) = x ++ c :: joinCh c xs := by
  cases xs with
  | nil => exact absurd rfl h
  | cons y ys =>
    unfold joinCh
    simp [List.intercalate, List.intersperse]

theorem splitCh_cons_self (c : Char) (rest : BStr) :
    splitCh c (c :: rest) = [] :: splitCh c rest := by
  simp [splitCh]

theorem splitNl_join_flat (disabled : List BStr)
    (hd : ∀ l ∈ disabled, ∀ c ∈ l, c ≠ '\n') :
    splitCh '\n' (joinCh '\n' (disabled ++ [[]])) = disabled ++ [[]] := by
  induction disabled with
  | nil => decide
  | cons d ds ih =>
    rw [List.cons_append, joinCh_cons '\n' d (ds ++ [[]]) (by simp)]
    rw [splitCh_cons_sep '\n' (hd d (by simp)) (joinCh '\n' (ds ++ [[]]))]
    rw [ih (fun l hl => hd l (by simp [hl]))]

theorem splitNl_marker (disabled : List BStr)
    (hd : ∀ l ∈ disabled, ∀ c ∈ l, c ≠ '\n') :
    splitCh '\n' (joinCh '\n' (str "\n*disabled*\n" :: (disabled ++ [[]]))) =
      [[], str "*disabled*", []] ++ disabled ++ [[]] := by
  rw [joinCh_cons '\n' _ (disabled ++ [[]]) (by simp)]
  rw [show str "\n*disabled*\n" ++ '\n' :: joinCh '\n' (disabled ++ [[]]) =
    '\n' :: (str "*disabled*" ++ '\n' :: ('\n' :: joinCh '\n' (disabled ++ [[]])))
    from by
      rw [show str "\n*disabled*\n" = '\n' :: (str "*disabled*" ++ ['\n']) from rfl]
      simp]
  rw [splitCh_cons_self]
  rw [splitCh_cons_sep '\n' (by decide) ('\n' :: joinCh '\n' (disabled ++ [[]]))]
  rw [splitCh_cons_self]
  rw [splitNl_join_flat disabled hd]
  rfl

theorem splitNl_mid (lines disabled : List BStr)
    (hl : ∀ l ∈ lines, ∀ c ∈ l, c ≠ '\n')
    (hd : ∀ l ∈ disabled, ∀ c ∈ l, c ≠ '\n') :
    splitCh '\n' (joinCh '\n'
        (lines ++ str "\n*disabled*\n" :: (disabled ++ [[]]))) =
      lines ++ ([[], str "*disabled*", []] ++ disabled ++ [[]]) := by
  induction lines with
  | nil => simpa using splitNl_marker disabled hd
  | cons x xs ih =>
    rw [List.cons_append, joinCh_cons '\n' x _ (by simp),
      splitCh_cons_sep '\n' (hl x (by simp)) _,
      ih (fun l h2 => hl l (by simp [h2]))]
    rfl

theorem splitNl_layout (lines : List BStr) (disabled : List BStr)
    (hl : ∀ l ∈ lines, ∀ c ∈ l, c ≠ '\n')
    (hd : ∀ l ∈ disabled, ∀ c ∈ l, c ≠ '\n') :
    splitCh '\n' (joinCh '\n'
      ([str "*static*"] ++ lines ++ [str "\n*disabled*\n"] ++ disabled ++ [[]])) =
      [str "*static*"] ++ lines ++ [[], str "*disabled*", []] ++ disabled ++ [[]] := by
  rw [show [str "*static*"] ++ lines ++ [str "\n*disabled*\n"] ++ disabled ++ [[]] =
    str "*static*" :: (lines ++ str "\n*disabled*\n" :: (disabled ++ [[]]))
    from by simp]
  rw [joinCh_cons '\n' (str "*static*") _ (by cases lines <;> simp)]
  rw [splitCh_cons_sep '\n' (by decide) _]
  rw [splitNl_mid lines disabled hl hd]
  simp

/-- C8 counterexample: on a run with one enabled module and one
disabled module, the regenerated manifest is NOT `*static*`, module
lines, one blank, `*disabled*`, then the disabled names with nothing
interposed: an extra blank line separates the `*disabled*` marker from
the first disabled name (and a trailing blank ends the text). -/
theorem C8_counterexample :
    (derive_setup_local [] [] (str "3.11") (str "x86_64-unknown-linux-gnu")
      [(str "foo", { sources := some [str "foo.c"] }),
       (str "bar", { disabled_targets := [str "x86_64-unknown-linux-gnu"] })]
      (fun p s => leadsWith p s)).map (fun r => splitCh '\n' r.setup_local) =
      .ok [str "*static*", str "foo foo.c", [], str "*disabled*", [], str "bar", []] ∧
    [str "*static*", str "foo foo.c", [], str "*disabled*", [], str "bar", []] ≠
      [str "*static*", str "foo foo.c", [], str "*disabled*", str "bar"] :=
  ⟨by decide, by decide⟩

/-- C8 (amended): on every successful run the regenerated manifest
text splits on newlines into exactly: the `*static*` marker; the
synthesized module lines in module-name order (as emitted by
`synthesizeLines`, which walks `activeModules`, a name-sorted list);
one blank line; the `*disabled*` marker; one more blank line; the
disabled module names sorted; and a final blank from the terminating
newline — provided no emitted line or disabled name contains a
newline byte. -/
theorem C8_output_layout (setup_lines : List BStr) (config_c_in : BStr)
    (pv tt : BStr) (mods : List (BStr × ModuleInfo)) (rmatch : BStr → BStr → Bool)
    (meta : CollectResult) (lines : List BStr) (cf : Cflags)
    (hc : collectMeta mods pv tt rmatch = .ok meta)
    (hval : validateMeta
      ((sortChars ((parse_config_c config_c_in).map (fun kv => kv.1))).foldl setAdd
        (parseSetupDist setup_lines).dist_modules)
      (parseSetupDist setup_lines).setup_enabled_actual
      ((parse_config_c config_c_in).map (fun kv => kv.1))
      (mods.map (fun m => m.1)) meta.setup_enabled_wanted
      meta.config_c_only_wanted = .ok ())
    (hsyn : synthesizeLines mods meta.disabled meta.ignored pv tt rmatch =
      .ok (lines, cf))
    (hl : ∀ l ∈ lines, ∀ c ∈ l, c ≠ '\n')
    (hd : ∀ x ∈ meta.disabled, ∀ c ∈ x, c ≠ '\n') :
    derive_setup_local setup_lines config_c_in pv tt mods rmatch =
      .ok { config_c_extensions := parse_config_c config_c_in,
            setup_dist := joinCh '\n' setup_lines,
            setup_local := joinCh '\n' ([str "*static*"] ++ lines ++
              [str "\n*disabled*\n"] ++ sortChars meta.disabled ++ [[]]),
            make_data := joinCh '\n' (makeLines cf) } ∧
    splitCh '\n' (joinCh '\n' ([str "*static*"] ++ lines ++
        [str "\n*disabled*\n"] ++ sortChars meta.disabled ++ [[]])) =
      [str "*static*"] ++ lines ++ [[], str "*disabled*", []] ++
        sortChars meta.disabled ++ [[]] ∧
    List.Pairwise (fun a b => leChars a b = true) (sortChars meta.disabled) := by
  refine ⟨?_, splitNl_layout lines (sortChars meta.disabled) hl
    (fun x hx => hd x (mem_sortChars.mp hx)), sortChars_sorted _⟩
  unfold derive_setup_local
  rw [hc]
  simp only [Bind.bind, Except.bind]
  rw [hval, hsyn]
  rfl

/-- Witness for C8 (amended) at the counterexample input. -/
theorem C8_output_layout_witness :
    derive_setup_local [] [] (str "3.11") (str "x86_64-unknown-linux-gnu")
      [(str "foo", { sources := some [str "foo.c"] }),
       (str "bar", { disabled_targets := [str "x86_64-unknown-linux-gnu"] })]
      (fun p s => leadsWith p s) =
      .ok { config_c_extensions := parse_config_c [],
            setup_dist := joinCh '\n' [],
            setup_local := joinCh '\n' ([str "*static*"] ++ [str "foo foo.c"] ++
              [str "\n*disabled*\n"] ++ sortChars [str "bar"] ++ [[]]),
            make_data := joinCh '\n' (makeLines []) } := by
  exact (C8_output_layout [] [] (str "3.11") (str "x86_64-unknown-linux-gnu")
    [(str "foo", { sources := some [str "foo.c"] }),
     (str "bar", { disabled_targets := [str "x86_64-unknown-linux-gnu"] })]
    (fun p s => leadsWith p s)
    { ignored := [], disabled := [str "bar"], setup_enabled_wanted := [],
      config_c_only_wanted := [] }
    [str "foo foo.c"] [] (by decide) (by decide) (by decide) (by decide)
    (by decide)).1

/-- C9 counterexample: a ModuleSpec whose `sources` clause is present
but empty declares zero sources, yet it contributes a module line (the
bare name `foo` appears between `*static*` and `*disabled*`): the
filter tests only the presence of the `sources` key, not that at least
one source is declared. -/
theorem C9_counterexample :
    activeModules [(str "foo", { sources := some [] })] [] [] =
      [(str "foo", { sources := some [] })] ∧
    derive_setup_local [] [] (str "3.11") (str "t")
      [(str "foo", { sources := some [] })] (fun _ _ => false) =
      .ok { config_c_extensions := [], setup_dist := [],
            setup_local := str "*static*\nfoo\n\n*disabled*\n\n", make_data := [] } ∧
    ({ sources := some [] } : ModuleInfo).sources.getD [] = [] :=
  ⟨by decide, by decide, by decide⟩

theorem synthFold_length (pv tt : BStr) (rmatch : BStr → BStr → Bool) :
    ∀ (l : List (BStr × ModuleInfo)) (acc res : List BStr × Cflags),
      l.foldlM (fun acc m => do
        let line ← derive_module_line m.1 m.2 pv tt rmatch
        let lineCf ← hoist_line line pv acc.2
        pure (acc.1 ++ [lineCf.1], lineCf.2)) acc = .ok res →
      res.1.length = acc.1.length + l.length := by
  intro l
  induction l with
  | nil =>
    intro acc res h
    simp only [List.foldlM_nil, pure, Except.pure, Except.ok.injEq] at h
    rw [← h]
    simp
  | cons m ms ih =>
    intro acc res h
    simp only [List.foldlM_cons] at h
    cases hdl : derive_module_line m.1 m.2 pv tt rmatch with
    | error e =>
      rw [hdl] at h
      simp [Bind.bind, Except.bind] at h
    | ok line =>
      rw [hdl] at h
      simp only [Bind.bind, Except.bind] at h
      cases hho : hoist_line line pv acc.2 with
      | error e =>
        rw [hho] at h
        simp at h
      | ok lineCf =>
        rw [hho] at h
        simp only [pure, Except.pure] at h
        have h2 := ih (acc.1 ++ [lineCf.1], lineCf.2) res h
        simp only [List.length_append, List.length_cons, List.length_nil] at h2 ⊢
        omega

/-- C9 (amended): `activeModules` — the module filter the synthesis
loop of `derive_setup_local` iterates — selects exactly the modules
that are not target-disabled, not version-ignored, and have a `sources`
KEY (possibly with an empty list); it presents them in lexicographic
name order, and on a successful run `synthesizeLines` emits exactly one
module line for each selected module. -/
theorem C9_module_selection (mods : List (BStr × ModuleInfo))
    (disabled ignored : List BStr) :
    (∀ nm inf, (nm, inf) ∈ activeModules mods disabled ignored ↔
      ((nm, inf) ∈ mods ∧ nm ∉ disabled ∧ nm ∉ ignored ∧ inf.sources.isSome = true)) ∧
    List.Pairwise (fun a b => leChars a.1 b.1 = true)
      (activeModules mods disabled ignored) ∧
    (∀ (pv tt : BStr) (rmatch : BStr → BStr → Bool) (lines : List BStr) (cf : Cflags),
      synthesizeLines mods disabled ignored pv tt rmatch = .ok (lines, cf) →
      lines.length = (activeModules mods disabled ignored).length) := by
  refine ⟨?_, ?_, ?_⟩
  · intro nm inf
    unfold activeModules
    rw [List.mem_filter]
    simp only [Bool.and_eq_true, decide_eq_true_eq]
    rw [mem_sortByKey]
    constructor
    · rintro ⟨h1, ⟨h2, h3⟩, h4⟩
      exact ⟨h1, h2, h3, h4⟩
    · rintro ⟨h1, h2, h3, h4⟩
      exact ⟨h1, ⟨h2, h3⟩, h4⟩
  · unfold activeModules
    exact List.Pairwise.sublist (List.filter_sublist _)
      (sortByKey_sorted (fun m => m.1) mods)
  · intro pv tt rmatch lines cf h
    unfold synthesizeLines at h
    have := synthFold_length pv tt rmatch (activeModules mods disabled ignored)
      ([], []) (lines, cf) h
    simpa using this

/-- Witness for C9 (amended) at a concrete input with one selected and
one skipped module. -/
theorem C9_module_selection_witness :
    ((str "foo", ({ sources := some [str "foo.c"] } : ModuleInfo)) ∈
        activeModules [(str "foo", { sources := some [str "foo.c"] }),
          (str "bar", {})] [] [] ↔
      ((str "foo", ({ sources := some [str "foo.c"] } : ModuleInfo)) ∈
          [(str "foo", ({ sources := some [str "foo.c"] } : ModuleInfo)),
           (str "bar", ({} : ModuleInfo))] ∧
        str "foo" ∉ ([] : List BStr) ∧ str "foo" ∉ ([] : List BStr) ∧
        ({ sources := some [str "foo.c"] } : ModuleInfo).sources.isSome = true)) ∧
    (synthesizeLines [(str "foo", { sources := some [str "foo.c"] }),
        (str "bar", {})] [] [] (str "3.11") (str "t") (fun _ _ => false) =
      .ok ([str "foo foo.c"], []) ∧
      ([str "foo foo.c"] : List BStr).length =
        (activeModules [(str "foo", { sources := some [str "foo.c"] }),
          (str "bar", {})] [] []).length) := by
  constructor
  · exact (C9_module_selection [(str "foo", { sources := some [str "foo.c"] }),
      (str "bar", {})] [] []).1 (str "foo") { sources := some [str "foo.c"] }
  · refine ⟨by decide, ?_⟩
    exact (C9_module_selection [(str "foo", { sources := some [str "foo.c"] }),
      (str "bar", {})] [] []).2.2 (str "3.11") (str "t") (fun _ _ => false)
      [str "foo foo.c"] [] (by decide)

/-- C10 counterexample: the two renderings of library `z` parse to the
same link set, but the full parsed records are not identical — the
record echoes the raw input line, which differs. -/
theorem C10_counterexample :
    (parse_setup_line (str "foo -lz") (str "3.11")).map
        (Option.map (fun r => r.links)) = .ok (some [str "z"]) ∧
    (parse_setup_line (str "foo -Xlinker -hidden-lz") (str "3.11")).map
        (Option.map (fun r => r.links)) = .ok (some [str "z"]) ∧
    parse_setup_line (str "foo -lz") (str "3.11") ≠
      parse_setup_line (str "foo -Xlinker -hidden-lz") (str "3.11") :=
  ⟨by decide, by decide, by decide⟩

/-- C10 (amended): the token loop of the Manifest Line Parser maps the
ordinary rendering `-l<name>` and the hidden rendering
`-Xlinker -hidden-l<name>` of the same library to identical parse
state — identical object paths, link set (the bare name, marker
stripped) and frameworks — whatever surrounds them; only the echoed
raw `line` field of the final record can differ.  The preceding word
must not be `-framework` (which would capture the next word), and the
rendered tokens must not end in `.c` (which would make them sources). -/
theorem C10_hidden_link_parse (pv n : BStr) (pre post : List BStr) (st : ParseAcc)
    (hpre : pre.getLast? ≠ some (str "-framework"))
    (h1 : endsDotC (str "-l" ++ n) = false)
    (h2 : endsDotC (str "-hidden-l" ++ n) = false) :
    parseWords pv (pre ++ (str "-l" ++ n) :: post) st =
      parseWords pv (pre ++ str "-Xlinker" :: (str "-hidden-l" ++ n) :: post) st := by
  induction pre generalizing st with
  | nil =>
    simp only [List.nil_append]
    rw [parseWords_cons, parseWords_cons]
    rw [if_neg (by rw [h1]; exact Bool.false_ne_true)]
    rw [if_pos (leadsWith_iff.mpr ⟨n, rfl⟩)]
    rw [if_neg (show ¬ endsDotC (str "-Xlinker") = true from by decide)]
    rw [if_neg (show ¬ leadsWith (str "-l") (str "-Xlinker") = true from by decide)]
    rw [if_neg (show ¬ leadsWith (str "-hidden-l") (str "-Xlinker") = true from by decide)]
    rw [if_neg (show ¬ str "-Xlinker" = str "-framework" from by decide)]
    rw [parseWords_cons]
    rw [if_neg (by rw [h2]; exact Bool.false_ne_true)]
    rw [if_neg (show ¬ leadsWith (str "-l") (str "-hidden-l" ++ n) = true from by
      have hf : leadsWith (str "-l") (str "-hidden-l" ++ n) = false := rfl
      rw [hf]
      exact Bool.false_ne_true)]
    rw [if_pos (leadsWith_iff.mpr ⟨n, rfl⟩)]
    rw [show List.drop 2 (str "-l" ++ n) = n from rfl,
      show List.drop 9 (str "-hidden-l" ++ n) = n from rfl]
  | cons w pre2 ih =>
    have hpre2 : pre2.getLast? ≠ some (str "-framework") := by
      cases pre2 with
      | nil => simp
      | cons p ps =>
        rwa [List.getLast?_cons_cons] at hpre
    simp only [List.cons_append]
    rw [parseWords_cons, parseWords_cons]
    by_cases hc1 : endsDotC w = true
    · rw [if_pos hc1, if_pos hc1]
      cases meets_python_minimum_version pv (str "3.11") with
      | none => rfl
      | some b => exact ih _ hpre2
    · rw [if_neg hc1, if_neg hc1]
      by_cases hc2 : leadsWith (str "-l") w = true
      · rw [if_pos hc2, if_pos hc2]
        exact ih _ hpre2
      · rw [if_neg hc2, if_neg hc2]
        by_cases hc3 : leadsWith (str "-hidden-l") w = true
        · rw [if_pos hc3, if_pos hc3]
          exact ih _ hpre2
        · rw [if_neg hc3, if_neg hc3]
          by_cases hc4 : w = str "-framework"
          · cases pre2 with
            | nil =>
              exfalso
              apply hpre
              simp [hc4]
            | cons p ps =>
              rw [if_pos hc4, if_pos hc4]
              exact ih _ hpre2
          · rw [if_neg hc4, if_neg hc4]
            exact ih _ hpre2

/-- Witness for C10 (amended) at the concrete line of the
counterexample. -/
theorem C10_hidden_link_parse_witness :
    parseWords (str "3.11") ([str "foo"] ++ (str "-l" ++ str "z") :: []) ⟨[], [], []⟩ =
      parseWords (str "3.11")
        ([str "foo"] ++ str "-Xlinker" :: (str "-hidden-l" ++ str "z") :: [])
        ⟨[], [], []⟩ :=
  C10_hidden_link_parse (str "3.11") (str "z") [str "foo"] [] ⟨[], [], []⟩
    (by decide) (by decide) (by decide)
